import Mathlib

/-!
# Verification of the Parser repository's address-matching core

Shallow embedding of `Parser/robot.py` (text normalization, address component
extraction, house/part comparison, the `compare_one` decision engine) and of
`Parser/build_union_board.py` (cross-source clustering), with theorems settling
the specification claims.

Strings are modelled as `List Char` (Lean `Char` = Unicode scalar value, the
same code points Python `str` indexes).  Python `float` area/price values are
modelled as exact rationals `ℚ`: every claim under study compares or subtracts
values whose magnitudes make the modelled arithmetic agree with the code's
(binary-float rounding is never the subject of a claim; number *formatting*
helpers note their caveats locally).  Python `int` house numbers are `Nat`
(they come from 1-4 digit groups).  Fallible parsing returns `Option`.
Regex operations are hand-compiled to scanners with the exact semantics of
`re.sub` / `re.finditer` (leftmost match, non-overlapping, left-to-right,
ordered alternation with backtracking, greedy optional groups).
-/

set_option autoImplicit false
set_option maxRecDepth 3000

/- Batteries marks the rational-arithmetic primitives `@[irreducible]`; the
kernel evaluates them regardless, and `decide`-style proofs about concrete
areas and prices need the elaborator to evaluate them too. -/
attribute [local semireducible] Rat.add Rat.sub Rat.mul Rat.inv

namespace Parser

/-- A Python `str`, as its list of code points. -/
abbrev Str := List Char

/-- Code points of a Lean string literal (used to write concrete inputs). -/
def chars (s : String) : Str := s.data

/-! ## Character classes (for the regex character classes the source uses) -/

/-- `\d` (ASCII digits; the source's inputs carry no other decimal digits). -/
def isDigitC (c : Char) : Bool := '0' ≤ c && c ≤ '9'

def isLatinLower (c : Char) : Bool := 'a' ≤ c && c ≤ 'z'

def isLatinUpper (c : Char) : Bool := 'A' ≤ c && c ≤ 'Z'

/-- Cyrillic `а`–`я` (U+0430–U+044F); note `ё` (U+0451) is outside the range,
exactly as in the source's `[а-я]` classes. -/
def isCyrLower (c : Char) : Bool := 'а' ≤ c && c ≤ 'я'

/-- Cyrillic `А`–`Я` (U+0410–U+042F). -/
def isCyrUpper (c : Char) : Bool := 'А' ≤ c && c ≤ 'Я'

/-- Model of Python's `\s` / `str.strip()` whitespace on the code points this
repository's pipeline can see (ASCII whitespace and NBSP). -/
def isPySpace (c : Char) : Bool :=
  c = ' ' || c = '\t' || c = '\n' || c = '\r' || c.toNat = 11 || c.toNat = 12 ||
    c.toNat = 160

/-- Model of Python's `\w` (regex word character) on the Latin/Cyrillic/digit
alphabet the pipeline processes; used for `\b` word boundaries. -/
def isWordChar (c : Char) : Bool :=
  isLatinLower c || isLatinUpper c || isDigitC c || c = '_' ||
    isCyrLower c || isCyrUpper c || c = 'ё' || c = 'Ё'

/-- Model of `str.lower()`, character-wise on the Latin and Cyrillic ranges the
pipeline processes (Python's full case mapping agrees with this on them). -/
def lowerChar (c : Char) : Char :=
  if isLatinUpper c then Char.ofNat (c.toNat + 32)
  else if isCyrUpper c then Char.ofNat (c.toNat + 32)
  else if c = 'Ё' then 'ё'
  else c

/-! ## Small string helpers -/

/-- `str.strip()`. -/
def pyStrip (l : Str) : Str :=
  ((l.dropWhile isPySpace).reverse.dropWhile isPySpace).reverse

/-- `str.lower()`. -/
def pyLower (l : Str) : Str := l.map lowerChar

/-- `str.split()` with no argument: maximal non-whitespace runs. -/
def splitWsGo : Str → Str → List Str
  | [], acc => if acc = [] then [] else [acc.reverse]
  | c :: rest, acc =>
      if isPySpace c then
        if acc = [] then splitWsGo rest [] else acc.reverse :: splitWsGo rest []
      else splitWsGo rest (c :: acc)

def splitWs (l : Str) : List Str := splitWsGo l []

/-- `str.split(sep)` for a one-character separator (keeps empty pieces, as
Python does). -/
def splitOnChar (sep : Char) : Str → List Str
  | [] => [[]]
  | c :: rest =>
      if c = sep then [] :: splitOnChar sep rest
      else
        match splitOnChar sep rest with
        | [] => [[c]]
        | piece :: more => (c :: piece) :: more

/-- `" ".join tokens` / `" | ".join items`. -/
def joinWith (sep : Str) : List Str → Str
  | [] => []
  | [t] => t
  | t :: rest => t ++ sep ++ joinWith sep rest

/-- Value of a digit string, as `int()` computes it. -/
def natOfDigits (l : Str) : Nat :=
  l.foldl (fun n c => n * 10 + (c.toNat - '0'.toNat)) 0

/-- Python's `abs` on a rational (spelled out so kernel reduction computes). -/
def qabs (q : ℚ) : ℚ := if q < 0 then -q else q

/-- Python string `<` is lexicographic by code point; this is the `Bool` form
used to model `sorted`. -/
def strLe : Str → Str → Bool
  | [], _ => true
  | _ :: _, [] => false
  | a :: as_, b :: bs => if a = b then strLe as_ bs else decide (a < b)

/-- Stable insertion of one element into a `≤`-sorted list (goes after equal
keys, like Python's stable `sorted`). -/
def insertLe {α : Type} (le : α → α → Bool) (x : α) : List α → List α
  | [] => [x]
  | y :: ys => if le y x then y :: insertLe le x ys else x :: y :: ys

/-- Stable sort, extensionally equal to Python's stable `sorted(key=...)`. -/
def sortLe {α : Type} (le : α → α → Bool) : List α → List α
  | [] => []
  | x :: xs => insertLe le x (sortLe le xs)

/-! ## The generic `re.sub` scanner

`re.sub` finds non-overlapping matches left to right over the *original*
string and replaces each.  `step prev l` decides whether a match starts at the
head of `l`, where `prev` is the character just before that position (for
word boundaries / lookbehind); on success it returns the replacement text, the
last character the match consumed, and the remaining input.  Every pattern the
source uses consumes at least one character, so fuel `length + 1` suffices. -/

def scanRw (step : Option Char → Str → Option (Str × Char × Str)) :
    Nat → Option Char → Str → Str
  | 0, _, l => l
  | _ + 1, _, [] => []
  | fuel + 1, prev, c :: rest =>
      match step prev (c :: rest) with
      | some (out, lastc, next) => out ++ scanRw step fuel (some lastc) next
      | none => c :: scanRw step fuel (some c) rest

def reSub (step : Option Char → Str → Option (Str × Char × Str)) (l : Str) :
    Str :=
  scanRw step (l.length + 1) none l

/-- `re.sub(r"\s+", " ", s)`. -/
def wsStep (_ : Option Char) (l : Str) : Option (Str × Char × Str) :=
  match l with
  | c :: _ =>
      if isPySpace c then
        let run := l.takeWhile isPySpace
        some ([' '], run.getLastD ' ', l.drop run.length)
      else none
  | [] => none

def collapseWs (l : Str) : Str := reSub wsStep l

/-- `re.sub(r"\s*,\s*", ", ", s)`: a match must start at the scan position
with (possibly empty) whitespace leading straight to a comma. -/
def commaStep (_ : Option Char) (l : Str) : Option (Str × Char × Str) :=
  let ws := l.takeWhile isPySpace
  match l.drop ws.length with
  | ',' :: tl =>
      let ws2 := tl.takeWhile isPySpace
      some ([',', ' '], ws2.getLastD ',', tl.drop ws2.length)
  | _ => none

def commaSpace (l : Str) : Str := reSub commaStep l

/-! ## `norm_text` (robot.py lines 155-172)

The `unicodedata.normalize("NFKC", ·)` library call is modelled on the code
points this repository processes: NFKC is the identity on ASCII and on
composed Cyrillic; the model implements the relevant non-identity mappings
(`№` U+2116 → `"No"`, NBSP → space, and canonical composition of
`е`/`Е` + combining diaeresis U+0308 into `ё`/`Ё`, the pair the later
`ё → е` replacement cares about). -/

def nfkcChar (c : Char) : Str :=
  if c = '№' then chars "No"
  else if c.toNat = 160 then [' ']
  else [c]

def nfkcCompose : Str → Str
  | [] => []
  | [a] => [a]
  | a :: b :: rest =>
      if a = 'е' && b.toNat = 0x308 then 'ё' :: nfkcCompose rest
      else if a = 'Е' && b.toNat = 0x308 then 'Ё' :: nfkcCompose rest
      else a :: nfkcCompose (b :: rest)

def nfkc (l : Str) : Str := nfkcCompose (l.map nfkcChar).flatten

/-- The punctuation class `[\.;:\(\)\[\]\{\}]` removed (to spaces) by
`norm_text`; braces written by code point. -/
def isPunctCls (c : Char) : Bool :=
  c = '.' || c = ';' || c = ':' || c = '(' || c = ')' || c = '[' || c = ']' ||
    c.toNat = 123 || c.toNat = 125

/-- `norm_text`: NFKC, lowercase, `ё→е`, strip `№` and backslashes, punctuation
to spaces, comma spacing, whitespace collapse, strip. -/
def norm_text (s : Str) : Str :=
  let s := nfkc s
  let s := pyLower s
  let s := s.map fun c => if c = 'ё' then 'е' else c
  let s := s.filter fun c => c ≠ '№'
  let s := s.map fun c => if c = '\\' then ' ' else c
  let s := s.map fun c => if isPunctCls c then ' ' else c
  let s := commaSpace s
  let s := collapseWs s
  pyStrip s

/-! ## `_STREET_EQUIV` rewriting (robot.py lines 176-238) -/

/-- One `re.sub(r"\bPAT\b", rep, s)` word-bounded literal rewrite.  Every
pattern starts with a word character, so the leading `\b` demands a non-word
(or absent) previous character.  Patterns ending in a word character demand a
non-word (or absent) next character; the `пр\.`-style patterns end in `.`
(non-word), where `\b` demands that a word character follows. -/
def boundaryBefore (prev : Option Char) : Bool :=
  match prev with
  | none => true
  | some p => !isWordChar p

def boundaryAfter (pat rest : Str) : Bool :=
  if isWordChar (pat.getLastD ' ') then
    match rest.head? with
    | none => true
    | some c => !isWordChar c
  else
    match rest.head? with
    | none => false
    | some c => isWordChar c

def wordPatStep (pat rep : Str) (prev : Option Char) (l : Str) :
    Option (Str × Char × Str) :=
  let rest := l.drop pat.length
  if l.take pat.length == pat && boundaryBefore prev && boundaryAfter pat rest
  then some (rep, pat.getLastD ' ', rest)
  else none

def applyWordRule (s : Str) (rule : Str × Str) : Str :=
  reSub (wordPatStep rule.1 rule.2) s

/-- `_STREET_EQUIV`, in source order (rule order matters). -/
def streetEquiv : List (Str × Str) :=
  [ (chars "проспект", chars "пр"), (chars "просп", chars "пр"),
    (chars "пр-кт", chars "пр"), (chars "пр-т", chars "пр"),
    (chars "пр.", chars "пр"), (chars "пр", chars "пр"),
    (chars "улица", chars "ул"), (chars "ул.", chars "ул"),
    (chars "ул", chars "ул"),
    (chars "набережная", chars "наб"), (chars "наб.", chars "наб"),
    (chars "наб", chars "наб"),
    (chars "переулок", chars "пер"), (chars "пер.", chars "пер"),
    (chars "пер", chars "пер"),
    (chars "шоссе", chars "ш"), (chars "ш.", chars "ш"), (chars "ш", chars "ш"),
    (chars "корпус", chars "к"), (chars "корп.", chars "к"),
    (chars "строение", chars "стр"), (chars "стр.", chars "стр") ]

/-- `normalize_street_part`. -/
def normalize_street_part (s : Str) : Str :=
  pyStrip (collapseWs (streetEquiv.foldl applyWordRule s))

/-! ## The house-block regex `_HOUSE_BLOCK_PAT` (robot.py lines 207-212)

```
(?<!\d)(\d{1,4})(?:\s*[-–]\s*(\d{1,4}))?([a-zа-я](?!\d))?
(?:\s*(?:к|корпус|корп)\s*\.?\s*(\d+[a-zа-я]?))?
(?:\s*(?:с|стр|строение)\s*\.?\s*(\d+[a-zа-я]?))?       flags: re.I
```
hand-compiled.  All quantifiers are greedy; the only backtracking the pattern
can need is across the *ordered* marker alternations (`к|корпус|корп`,
`с|стр|строение`): a literal alternative is committed only if the digits after
it also match, otherwise the next alternative is tried, and if all fail the
whole optional group matches empty.  The maximal-`\s*`/`\.?` choices never
need to be given back because every follow-up token (markers, digits) is
neither a space nor a dot. -/

/-- `[a-zа-я]` under `re.I` (both cases; `ё` excluded as in the source). -/
def isHouseLetter (c : Char) : Bool :=
  isLatinLower c || isLatinUpper c || isCyrLower c || isCyrUpper c

/-- The five capture groups of `_HOUSE_BLOCK_PAT`. -/
structure HouseGroups where
  g1 : Str
  g2 : Option Str
  g3 : Option Char
  g4 : Option Str
  g5 : Option Str
  deriving Repr, DecidableEq

/-- Case-insensitive literal prefix match (`re.I`). -/
def ciPrefix : Str → Str → Bool
  | [], _ => true
  | _ :: _, [] => false
  | p :: ps, c :: cs => lowerChar c = lowerChar p && ciPrefix ps cs

/-- `(?:\s*[-–]\s*(\d{1,4}))?`: returns the group and consumed length. -/
def optRange (l : Str) : Option (Str × Nat) :=
  let ws1 := l.takeWhile isPySpace
  match l.drop ws1.length with
  | c :: r2 =>
      if c = '-' || c = '–' then
        let ws2 := r2.takeWhile isPySpace
        let ds := ((r2.drop ws2.length).takeWhile isDigitC).take 4
        if ds = [] then none
        else some (ds, ws1.length + 1 + ws2.length + ds.length)
      else none
  | [] => none

/-- `([a-zа-я](?!\d))?`. -/
def optLetter (l : Str) : Option (Char × Nat) :=
  match l with
  | c :: rest =>
      if isHouseLetter c &&
          !(match rest with | d :: _ => isDigitC d | [] => false) then
        some (c, 1)
      else none
  | [] => none

/-- One alternative of `\s*(?:A|B|C)\s*\.?\s*(\d+[a-zа-я]?)` after the shared
leading `\s*` has been consumed: literal marker, optional dot amid spaces,
one-or-more digits, optional letter. -/
def markerAlt (alt : Str) (l : Str) : Option (Str × Nat) :=
  if ciPrefix alt l then
    let r2 := l.drop alt.length
    let ws2 := r2.takeWhile isPySpace
    let r3 := r2.drop ws2.length
    let dot := match r3 with | '.' :: _ => 1 | _ => 0
    let r4 := r3.drop dot
    let ws3 := r4.takeWhile isPySpace
    let r5 := r4.drop ws3.length
    let ds := r5.takeWhile isDigitC
    if ds = [] then none
    else
      let tl := r5.drop ds.length
      let letter := match tl with
        | c :: _ => if isHouseLetter c then [c] else []
        | [] => []
      some (ds ++ letter,
        alt.length + ws2.length + dot + ws3.length + ds.length + letter.length)
  else none

/-- Ordered alternation: first alternative whose full continuation matches. -/
def markerAlts : List Str → Str → Option (Str × Nat)
  | [], _ => none
  | alt :: more, l =>
      match markerAlt alt l with
      | some r => some r
      | none => markerAlts more l

/-- The whole optional marker group including its leading `\s*`. -/
def optMarker (alts : List Str) (l : Str) : Option (Str × Nat) :=
  let ws1 := l.takeWhile isPySpace
  match markerAlts alts (l.drop ws1.length) with
  | some (g, n) => some (g, ws1.length + n)
  | none => none

/-- Attempt `_HOUSE_BLOCK_PAT` at the head of `l` (`prev` = char before the
position, for the `(?<!\d)` lookbehind).  Returns groups and match length. -/
def matchHouseBlock (prev : Option Char) (l : Str) :
    Option (HouseGroups × Nat) :=
  if (match prev with | some p => isDigitC p | none => false) then none
  else
    let ds := (l.takeWhile isDigitC).take 4
    if ds = [] then none
    else
      let r1 := l.drop ds.length
      let (g2, n2) := match optRange r1 with
        | some (g, n) => (some g, n)
        | none => (none, 0)
      let r2 := r1.drop n2
      let (g3, n3) := match optLetter r2 with
        | some (c, n) => (some c, n)
        | none => (none, 0)
      let r3 := r2.drop n3
      let (g4, n4) := match optMarker [chars "к", chars "корпус", chars "корп"] r3 with
        | some (g, n) => (some g, n)
        | none => (none, 0)
      let r4 := r3.drop n4
      let (g5, n5) := match optMarker [chars "с", chars "стр", chars "строение"] r4 with
        | some (g, n) => (some g, n)
        | none => (none, 0)
      some (⟨ds, g2, g3, g4, g5⟩, ds.length + n2 + n3 + n4 + n5)

/-- `finditer`: scan left to right, non-overlapping; emit `(start, end,
groups)`.  Every match consumes ≥ 1 character, so fuel `length + 1` covers
the whole scan. -/
def finditerHouse : Nat → Option Char → Nat → Str → List (Nat × Nat × HouseGroups)
  | 0, _, _, _ => []
  | _ + 1, _, _, [] => []
  | fuel + 1, prev, i, c :: rest =>
      match matchHouseBlock prev (c :: rest) with
      | some (g, n) =>
          (i, i + n, g) ::
            finditerHouse fuel (some (((c :: rest).take n).getLastD c)) (i + n)
              ((c :: rest).drop n)
      | none => finditerHouse fuel (some c) (i + 1) rest

def houseMatches (l : Str) : List (Nat × Nat × HouseGroups) :=
  finditerHouse (l.length + 1) none 0 l

/-! ## `_parse_house_from_segment` and friends (robot.py lines 241-311) -/

structure HouseData where
  house_from : Nat
  house_to : Nat
  house_letter : Str
  corp : Option Str
  str : Option Str
  span : Nat × Nat
  deriving Repr, DecidableEq

def parse_house_from_segment (segment : Str) (prefer_first : Bool) :
    Option HouseData :=
  let ms := houseMatches segment
  match (if prefer_first then ms.head? else ms.getLast?) with
  | none => none
  | some (s, e, g) =>
      some { house_from := natOfDigits g.g1
             house_to := match g.g2 with
               | some d => natOfDigits d
               | none => natOfDigits g.g1
             house_letter := match g.g3 with | some c => [c] | none => []
             corp := g.g4
             str := g.g5
             span := (s, e) }

def remove_house_from_segment (segment : Str) (span : Nat × Nat) : Str :=
  let left := pyStrip (segment.take span.1)
  let right := pyStrip (segment.drop span.2)
  if left ≠ [] ∧ right ≠ [] then left ++ ' ' :: right
  else if left ≠ [] then left
  else right

/-- The descriptor-word alternation of `_has_real_street_words`
(`\b(д|дом|к|корп|корпус|с|стр|строение|пом|помещение|оф|офис|лит|литера)\b`),
in source order.  Case-sensitive (no `re.I` on this `re.sub`). -/
def dropWordAlts : List Str :=
  [chars "д", chars "дом", chars "к", chars "корп", chars "корпус",
   chars "с", chars "стр", chars "строение", chars "пом", chars "помещение",
   chars "оф", chars "офис", chars "лит", chars "литера"]

def altWordStep (alts : List Str) (rep : Str) (prev : Option Char) (l : Str) :
    Option (Str × Char × Str) :=
  match alts.find? (fun pat =>
      l.take pat.length == pat && boundaryBefore prev
        && boundaryAfter pat (l.drop pat.length)) with
  | some pat => some (rep, pat.getLastD ' ', l.drop pat.length)
  | none => none

/-- `re.sub(r"\d+[a-zа-я]?", " ", s)` (case-sensitive letter class). -/
def numTokStep (_ : Option Char) (l : Str) : Option (Str × Char × Str) :=
  match l with
  | c :: _ =>
      if isDigitC c then
        let ds := l.takeWhile isDigitC
        let tl := l.drop ds.length
        let letter := match tl with
          | d :: _ => if isLatinLower d || isCyrLower d then [d] else []
          | [] => []
        some ([' '], (ds ++ letter).getLastD ' ', tl.drop letter.length)
      else none
  | [] => none

/-- `[^a-zа-я0-9]` under `re.I`. -/
def isNonAlnumRe (c : Char) : Bool :=
  !(isLatinLower c || isLatinUpper c || isCyrLower c || isCyrUpper c ||
    isDigitC c)

/-- `re.sub(r"[^a-zа-я0-9]+", " ", s, flags=re.I)`. -/
def nonAlnumStep (_ : Option Char) (l : Str) : Option (Str × Char × Str) :=
  match l with
  | c :: _ =>
      if isNonAlnumRe c then
        let run := l.takeWhile isNonAlnumRe
        some ([' '], run.getLastD ' ', l.drop run.length)
      else none
  | [] => none

/-- `_has_real_street_words`. -/
def has_real_street_words (text : Str) : Bool :=
  if text = [] then false
  else
    let tmp := reSub (altWordStep dropWordAlts [' ']) text
    let tmp := reSub numTokStep tmp
    let tmp := reSub nonAlnumStep tmp
    let tmp := pyStrip (collapseWs tmp)
    if tmp = [] then false
    else
      let tokens := (splitWs tmp).filter fun t =>
        !(match t with | [c] => isLatinLower c || isCyrLower c | _ => false)
      let tmp2 := joinWith [' '] tokens
      if tmp2 = [] then false
      else tmp2.any fun c => isLatinLower c || isCyrLower c

/-! ## `_make_street_keys` (robot.py lines 293-311) -/

def streetTypeTokens : List Str :=
  [chars "ул", chars "пр", chars "наб", chars "пер", chars "ш"]

def streetDropTokens : List Str :=
  [chars "д", chars "дом", chars "пом", chars "помещение", chars "оф",
   chars "офис", chars "лит", chars "литера", chars "к", chars "корпус",
   chars "корп", chars "стр", chars "строение"]

/-- `re.fullmatch(r"(?:к|стр)\d+[a-zа-я]?", t)` (case-sensitive). -/
def isTechToken (t : Str) : Bool :=
  let tailMatch : Str → Bool := fun rest =>
    let ds := rest.takeWhile isDigitC
    ds ≠ [] && (match rest.drop ds.length with
      | [] => true
      | [c] => isLatinLower c || isCyrLower c
      | _ => false)
  match t with
  | 'к' :: rest => tailMatch rest
  | 'с' :: 'т' :: 'р' :: rest => tailMatch rest
  | _ => false

def make_street_keys (street_zone : Str) : Str × Str :=
  let src := pyStrip (collapseWs (normalize_street_part street_zone))
  let tokens := (splitWs src).filter fun t =>
    !(streetTypeTokens.contains t) && !(streetDropTokens.contains t) &&
      !isTechToken t
  (pyStrip (joinWith [' '] tokens), pyStrip (joinWith [' '] (sortLe strLe tokens)))

/-! ## `extract_components` (robot.py lines 314-389) -/

structure AddressComponents where
  raw : Str
  norm : Str
  street_key : Str
  street_key_bag : Str
  house_from : Option Nat
  house_to : Option Nat
  house_letter : Str
  corp : Option Str
  str : Option Str
  deriving Repr, DecidableEq

/-- `re.sub(r"(\d)\s*к\s*(\d)", r"\1 к\2", a, flags=re.I)` (and the same with
`с`): split compact `70к1с1` into `70 к1 с1`. -/
def compactStep (marker : Char) (_ : Option Char) (l : Str) :
    Option (Str × Char × Str) :=
  match l with
  | d1 :: r1 =>
      if isDigitC d1 then
        let ws1 := r1.takeWhile isPySpace
        match r1.drop ws1.length with
        | m :: r2 =>
            if lowerChar m = marker then
              let ws2 := r2.takeWhile isPySpace
              match r2.drop ws2.length with
              | d2 :: r3 =>
                  if isDigitC d2 then some ([d1, ' ', marker, d2], d2, r3)
                  else none
              | [] => none
            else none
        | [] => none
      else none
  | [] => none

/-- The record assembly at the end of `extract_components` (robot.py lines
365-389): both house bounds come from the same parsed house block, so they
are present or absent together. -/
def mkComponents (raw a : Str) (keys : Str × Str)
    (house_data : Option HouseData) : AddressComponents :=
  match house_data with
  | none =>
      { raw := raw, norm := a, street_key := keys.1,
        street_key_bag := keys.2, house_from := none, house_to := none,
        house_letter := [], corp := none, str := none }
  | some hd =>
      { raw := raw, norm := a, street_key := keys.1,
        street_key_bag := keys.2, house_from := some hd.house_from,
        house_to := some hd.house_to, house_letter := hd.house_letter,
        corp := hd.corp, str := hd.str }

/-- The normalization/split/house-block stage of `extract_components`
(robot.py lines 332-363): returns the expanded normalized string, the parsed
house block (if any), and the street zone. -/
def extractionState (raw : Str) : Str × Option HouseData × Str :=
        let a := normalize_street_part (norm_text raw)
        let a := reSub (compactStep 'к') a
        let a := reSub (compactStep 'с') a
        let parts := ((splitOnChar ',' a).map pyStrip).filter (· ≠ [])
        let (house_data, street_zone) :=
          if parts.length ≥ 2 then
            let last := parts.getLastD []
            match parse_house_from_segment last true with
            | some hd =>
                let stripped_last := remove_house_from_segment last hd.span
                if has_real_street_words stripped_last then
                  (some hd, stripped_last)
                else (some hd, parts.getD (parts.length - 2) [])
            | none =>
                match parse_house_from_segment a false with
                | some hd => (some hd, remove_house_from_segment a hd.span)
                | none => (none, a)
          else
            match parse_house_from_segment a false with
            | some hd => (some hd, remove_house_from_segment a hd.span)
            | none => (none, a)
        (a, house_data, street_zone)

/-- The body of `extract_components` on a non-`None` address. -/
def extractRaw (raw : Str) : Option AddressComponents :=
  if raw = [] then none
  else
    some (mkComponents raw (extractionState raw).1
      (make_street_keys (extractionState raw).2.2) (extractionState raw).2.1)

def extract_components (address : Option Str) : Option AddressComponents :=
  match address with
  | none => none
  | some raw => extractRaw raw

/-! ## `houses_overlap` and `part_relation` (robot.py lines 392-420)

`houses_overlap` reads `house_to` only after checking `house_from` on both
sides; on components built by `extract_components`, `house_from` and
`house_to` are both present or both absent (theorem
`extract_components_house_iff` below), so the mixed arm is unreachable there.
On a hand-made dict with `house_from` set and `house_to = None` the Python
comparison would raise `TypeError`; the model returns `false` in that arm,
and every theorem about `houses_overlap` quantifies over extractor outputs or
carries the both-present hypothesis. -/

def houses_overlap (a b : AddressComponents) : Bool :=
  match a.house_from, b.house_from with
  | some a1, some b1 =>
      match a.house_to, b.house_to with
      | some a2, some b2 => !(decide (a2 < b1) || decide (b2 < a1))
      | _, _ => false
  | _, _ => false

/-- The two fields `part_relation` is called with (`"corp"` / `"str"`). -/
inductive PartField
  | corp
  | str
  deriving Repr, DecidableEq

def getPart (c : AddressComponents) : PartField → Option Str
  | .corp => c.corp
  | .str => c.str

/-- The code's `"ok"` / `"mismatch"` / `"unknown"` result strings, as an
enumeration. -/
inductive PartRel
  | ok
  | mismatch
  | unknown
  deriving Repr, DecidableEq

def part_relation (comp_a comp_b : AddressComponents) (field : PartField) :
    PartRel :=
  let va := pyLower (pyStrip ((getPart comp_a field).getD []))
  let vb := pyLower (pyStrip ((getPart comp_b field).getD []))
  if va = [] ∧ vb = [] then .ok
  else if va ≠ [] ∧ vb ≠ [] ∧ va = vb then .ok
  else if va ≠ [] ∧ vb ≠ [] ∧ va ≠ vb then .mismatch
  else .unknown

/-! ## Catalog items and `build_my_index` (robot.py lines 1288-1306) -/

/-- One catalog (`deals.xml`) listing, with the fields the matching core
reads. -/
structure MyItem where
  deal_type : Str
  status : Str
  address : Str
  area_m2 : Option ℚ
  price_rub : Option ℚ
  crm_url : Str
  deriving Repr, DecidableEq

/-- A catalog item with its attached `_comp` components (what
`build_my_index` stores in the index). -/
structure IdxItem extends MyItem where
  comp : AddressComponents
  deriving Repr, DecidableEq

/-- The index dict `street key → list of items`, as an insertion-ordered
association list with unique keys. -/
abbrev IndexT := List (Str × List IdxItem)

/-- `idx.setdefault(k, []).append(it)`. -/
def idxInsert : IndexT → Str → IdxItem → IndexT
  | [], k, it => [(k, [it])]
  | (k', l) :: rest, k, it =>
      if k' = k then (k', l ++ [it]) :: rest
      else (k', l) :: idxInsert rest k it

/-- `idx.get(k, [])`. -/
def idxGet : IndexT → Str → List IdxItem
  | [], _ => []
  | (k', l) :: rest, k => if k' = k then l else idxGet rest k

def build_my_index (my_items : List MyItem) : IndexT :=
  my_items.foldl
    (fun idx it =>
      match extract_components (some it.address) with
      | none => idx
      | some comp =>
          let item : IdxItem := ⟨it, comp⟩
          let idx :=
            if comp.street_key ≠ [] then idxInsert idx comp.street_key item
            else idx
          if comp.street_key_bag ≠ [] ∧ comp.street_key_bag ≠ comp.street_key
          then idxInsert idx comp.street_key_bag item
          else idx)
    []

/-! ## Number formatting helpers (robot.py lines 111-125, 1385-1406)

The claims under study never inspect these strings' contents; they are
modelled so the comparison records are complete.  Python formats *binary
floats*; the models round the exact rational half-to-even, which is what
`round()` / `format` do on the exactly-representable values the claims use. -/

def roundHalfEven (q : ℚ) : ℤ :=
  let f := q.floor
  let r := q - (f : ℚ)
  if r < 1/2 then f
  else if (1:ℚ)/2 < r then f + 1
  else if f % 2 = 0 then f else f + 1

/-- Digits of `n`, most significant first. -/
def natDigits (n : Nat) : Str := (Nat.toDigits 10 n)

/-- Group digits in threes from the right, separated by spaces (the
`f"{n:,}".replace(",", " ")` of `format_int_spaces`). -/
def groupThousandsGo : Str → Nat → Str
  | [], _ => []
  | c :: rest, i =>
      if i % 3 = 0 ∧ rest ≠ [] then c :: ' ' :: groupThousandsGo rest (i + 1)
      else c :: groupThousandsGo rest (i + 1)

def groupThousands (n : ℤ) : Str :=
  let ds := (groupThousandsGo (natDigits n.natAbs).reverse 1).reverse
  if n < 0 then '-' :: ds else ds

/-- `format_int_spaces` on a numeric value. -/
def format_int_spaces : Option ℚ → Str
  | none => []
  | some q => groupThousands (roundHalfEven q)

/-- `f"{q:.1f}"`: one decimal, half-even (see module caveat above). -/
def formatFixed1 (q : ℚ) : Str :=
  let m := roundHalfEven ((if q < 0 then -q else q) * 10)
  let whole := natDigits (m.toNat / 10)
  let dec := natDigits (m.toNat % 10)
  (if q < 0 then ['-'] else []) ++ whole ++ '.' :: dec

/-- `hyperlink(url, "ссылка")`. -/
def hyperlink (url : Str) : Str :=
  if url = [] then []
  else chars "=HYPERLINK(" ++ '"' :: url ++ chars "\",\"" ++ chars "ссылка" ++
    chars "\")"

/-- `describe_my_item`. -/
def describe_my_item (it : IdxItem) : Str :=
  let area_s := match it.area_m2 with
    | some a =>
        ((formatFixed1 a).reverse.dropWhile (· = '0')).reverse
          |>.reverse.dropWhile (· = '.') |>.reverse
    | none => []
  let price_s := format_int_spaces it.price_rub
  let parts :=
    ((if it.status ≠ [] then [it.status] else []) ++
     (if it.deal_type ≠ [] then [it.deal_type] else []) ++
     (if area_s ≠ [] then [area_s ++ chars " м²"] else []) ++
     (if price_s ≠ [] then [price_s] else []) ++
     (if hyperlink it.crm_url ≠ [] then [hyperlink it.crm_url] else []))
  pyStrip (joinWith [' '] parts)

/-! ## `_unique_items`, `_pick_reference_price`, `_build_price_alert`
(robot.py lines 1335-1406) -/

/-- The dedup key `(crm_url, address, area_m2, price_rub)`. -/
def key4 (x : IdxItem) : Str × Str × Option ℚ × Option ℚ :=
  (x.crm_url, x.address, x.area_m2, x.price_rub)

def uniqueItemsGo : List (Str × Str × Option ℚ × Option ℚ) → List IdxItem →
    List IdxItem
  | _, [] => []
  | seen, x :: rest =>
      if key4 x ∈ seen then uniqueItemsGo seen rest
      else x :: uniqueItemsGo (key4 x :: seen) rest

def unique_items (items : List IdxItem) : List IdxItem := uniqueItemsGo [] items

/-- `min(pool, key=λx. float(x["price_rub"]))`: first minimum by price (every
pool passed in is price-filtered, so `getD 0` is never the deciding value). -/
def minByPrice (x : IdxItem) (rest : List IdxItem) : IdxItem :=
  rest.foldl
    (fun best y =>
      if y.price_rub.getD 0 < best.price_rub.getD 0 then y else best) x

/-- The pool/scope priority chain of `_pick_reference_price` (lines
1358-1376): priced same-deal items, else priced Sale (resp. Rent) items for a
Sale (resp. Rent) query, else any priced item. -/
def pickPool (items : List IdxItem) (cdn : Str) : List IdxItem × Str :=
  let same_deal := items.filter fun x =>
    x.deal_type = cdn ∧ x.price_rub.isSome
  let sale := items.filter fun x =>
    x.deal_type = chars "sale" ∧ x.price_rub.isSome
  let rent := items.filter fun x =>
    x.deal_type = chars "rent" ∧ x.price_rub.isSome
  let any_priced := items.filter fun x => x.price_rub.isSome
  if same_deal ≠ [] then (same_deal, chars "same_deal")
  else if cdn = chars "sale" ∧ sale ≠ [] then (sale, chars "sale_only")
  else if cdn = chars "rent" ∧ rent ≠ [] then (rent, chars "rent_only")
  else (any_priced, chars "any_type")

def pick_reference_price (items : List IdxItem) (comp_deal : Str) :
    Option ℚ × Option IdxItem × Str :=
  if items = [] then (none, none, [])
  else
    match h : (pickPool items (pyLower (pyStrip comp_deal))).1 with
    | [] => (none, none, [])
    | x :: rest =>
        let best := minByPrice x rest
        (best.price_rub, some best,
          (pickPool items (pyLower (pyStrip comp_deal))).2)

def build_price_alert (comp_price my_price : Option ℚ) :
    Str × Option ℚ × Option ℚ :=
  match comp_price, my_price with
  | some cp, some mp =>
      if cp ≤ 0 then ([], none, none)
      else
        let delta := mp - cp
        let pct := delta / cp * 100
        if 0 < delta then
          (chars "У нас дороже на " ++ format_int_spaces (some delta) ++
             chars " (" ++ formatFixed1 pct ++ chars "%)",
           some delta, some pct)
        else if delta < 0 then
          (chars "У нас дешевле на " ++ format_int_spaces (some (qabs delta)) ++
             chars " (" ++ formatFixed1 (qabs pct) ++ chars "%)",
           some delta, some pct)
        else (chars "Цена равна", some delta, some pct)
  | _, _ => ([], none, none)

/-! ## `compare_one` (robot.py lines 1409-1541) -/

/-- One competitor listing, with the fields `compare_one` reads. -/
structure CompRow where
  address : Option Str
  area_m2 : Option ℚ
  price_rub : Option ℚ
  deal_type : Option Str
  deriving Repr, DecidableEq

/-- The result dict of `compare_one`. -/
structure CompResult where
  result : Str
  reason : Str
  our_best_price_rub : Option ℚ
  our_best_link : Str
  price_scope : Str
  price_alert : Str
  price_diff_rub : Option ℚ
  price_diff_pct : Option ℚ
  matched_count : Nat
  deriving Repr, DecidableEq

def notFoundResult (reason : Str) : CompResult :=
  { result := chars "Нет у нас", reason := reason,
    our_best_price_rub := none, our_best_link := [], price_scope := [],
    price_alert := [], price_diff_rub := none, price_diff_pct := none,
    matched_count := 0 }

/-- The five verdict strings of the output contract. -/
def verdictStrings : List Str :=
  [chars "Совпало", chars "По адресу есть, но площадь другая",
   chars "Корпус/строение не совпало",
   chars "У нас аренда, у конкурента продажа", chars "Нет у нас"]

/-- `AREA_TOL` (robot.py line 50). -/
def AREA_TOL : ℚ := 5

/-- The `area_diff` closure inside `compare_one`. -/
def area_diff (comp_area : Option ℚ) (c : IdxItem) : ℚ :=
  match comp_area, c.area_m2 with
  | some a, some b => qabs (a - b)
  | _, _ => 1000000000

/-- `sorted(…, key=area_diff)` (stable). -/
def sortByAreaDiff (comp_area : Option ℚ) (l : List IdxItem) : List IdxItem :=
  sortLe (fun x y => decide (area_diff comp_area x ≤ area_diff comp_area y)) l

/-- `str(comp_row.get("deal_type") or "").strip().lower()`. -/
def dealNorm (row : CompRow) : Str := pyLower (pyStrip (row.deal_type.getD []))

/-- A candidate has a corp or building mismatch against the query. -/
def isPartMismatch (cc : AddressComponents) (c : IdxItem) : Bool :=
  part_relation cc c.comp .corp = PartRel.mismatch ||
    part_relation cc c.comp .str = PartRel.mismatch

/-- The de-duplicated two-key candidate pull of `compare_one` (lines
1433-1438). -/
def candidatePull (cc : AddressComponents) (idx : IndexT) : List IdxItem :=
  unique_items
    ((if cc.street_key ≠ [] then idxGet idx cc.street_key else []) ++
     (if cc.street_key_bag ≠ [] then idxGet idx cc.street_key_bag else []))

def linkOf : Option IdxItem → Str
  | some it => hyperlink it.crm_url
  | none => []

/-- The overlap-filtered candidate list (robot.py lines 1432-1441). -/
def overlapCandidates (cc : AddressComponents) (idx : IndexT) : List IdxItem :=
  (candidatePull cc idx).filter fun c => houses_overlap cc c.comp

/-- Candidates with no corp/building mismatch, sorted by area distance, then
restricted to the `AREA_TOL` window — the `close` list of `compare_one`. -/
def sameHouseOf (cc : AddressComponents) (idx : IndexT) : List IdxItem :=
  (overlapCandidates cc idx).filter fun c => !isPartMismatch cc c

def closeOf (cc : AddressComponents) (comp_area : Option ℚ) (idx : IndexT) :
    List IdxItem :=
  (sortByAreaDiff comp_area (sameHouseOf cc idx)).filter fun c =>
    area_diff comp_area c ≤ AREA_TOL

/-- One non-NotFound result record (the five branches of `compare_one` differ
only in the verdict string and the diagnosed pool). -/
def mkVerdict (result : Str) (pool : List IdxItem) (comp_price : Option ℚ)
    (comp_deal : Str) (count : Nat) : CompResult :=
  let pick := pick_reference_price pool comp_deal
  let alert := build_price_alert comp_price pick.1
  { result := result,
    reason := joinWith (chars " | ") ((pool.take 12).map describe_my_item),
    our_best_price_rub := pick.1,
    our_best_link := linkOf pick.2.1,
    price_scope := pick.2.2,
    price_alert := alert.1,
    price_diff_rub := alert.2.1,
    price_diff_pct := alert.2.2,
    matched_count := count }

/-- The decision chain of `compare_one` on the overlap-filtered candidate
list (robot.py lines 1443-1541). -/
def compare_tail (cc : AddressComponents) (comp_area comp_price : Option ℚ)
    (comp_deal : Str) (candidates : List IdxItem) : CompResult :=
  if candidates = [] then
    notFoundResult (chars "Совпадений по улице+дому не найдено")
  else
    let same_house := candidates.filter fun c => !isPartMismatch cc c
    let part_mismatch := candidates.filter fun c => isPartMismatch cc c
    if same_house = [] ∧ part_mismatch ≠ [] then
      let all_found := sortByAreaDiff comp_area part_mismatch
      mkVerdict (chars "Корпус/строение не совпало") all_found comp_price
        comp_deal all_found.length
    else
      let same_house_sorted := sortByAreaDiff comp_area same_house
      let close := same_house_sorted.filter fun c =>
        area_diff comp_area c ≤ AREA_TOL
      if close = [] then
        mkVerdict (chars "По адресу есть, но площадь другая") same_house_sorted
          comp_price comp_deal same_house_sorted.length
      else
        let has_sale := close.any fun x => x.deal_type = chars "sale"
        let has_rent := close.any fun x => x.deal_type = chars "rent"
        if comp_deal = chars "sale" ∧ !has_sale ∧ has_rent then
          mkVerdict (chars "У нас аренда, у конкурента продажа") close
            comp_price comp_deal close.length
        else
          mkVerdict (chars "Совпало") close comp_price comp_deal close.length

/-- The body of `compare_one` after component extraction (robot.py lines
1432-1541). -/
def compare_core (cc : AddressComponents) (comp_area comp_price : Option ℚ)
    (comp_deal : Str) (my_index : IndexT) : CompResult :=
  compare_tail cc comp_area comp_price comp_deal (overlapCandidates cc my_index)

def compare_one (comp_row : CompRow) (my_index : IndexT) : CompResult :=
  let comp_deal := dealNorm comp_row
  match extract_components comp_row.address with
  | none => notFoundResult (chars "Адрес не разобран")
  | some cc =>
      if cc.street_key = [] ∧ cc.street_key_bag = [] then
        notFoundResult (chars "Адрес не разобран")
      else
        compare_core cc comp_row.area_m2 comp_row.price_rub comp_deal my_index

/-! ## C7: reference price is the minimum of the priority pool -/

/-- Every item of the selected pool carries a price. -/
theorem pickPool_priced (items : List IdxItem) (cdn : Str) :
    ∀ x ∈ (pickPool items cdn).1, x.price_rub.isSome := by
  intro x hx
  simp only [pickPool] at hx
  split at hx
  · simp only [List.mem_filter, decide_eq_true_eq] at hx
    exact hx.2.2
  · split at hx
    · simp only [List.mem_filter, decide_eq_true_eq] at hx
      exact hx.2.2
    · split at hx
      · simp only [List.mem_filter, decide_eq_true_eq] at hx
        exact hx.2.2
      · exact (List.mem_filter.mp hx).2

/-- Every item of the selected pool comes from the input list. -/
theorem pickPool_subset (items : List IdxItem) (cdn : Str) :
    ∀ x ∈ (pickPool items cdn).1, x ∈ items := by
  intro x hx
  simp only [pickPool] at hx
  split at hx
  · exact (List.mem_filter.mp hx).1
  · split at hx
    · exact (List.mem_filter.mp hx).1
    · split at hx
      · exact (List.mem_filter.mp hx).1
      · exact (List.mem_filter.mp hx).1

/-- The selected pool is empty iff no input item carries a price. -/
theorem pickPool_nil_iff (items : List IdxItem) (cdn : Str) :
    ((pickPool items cdn).1 = [] ↔ ∀ x ∈ items, x.price_rub = none) := by
  have hcontra : ∀ p : IdxItem → Bool, items.filter p ≠ [] →
      (∀ x ∈ items.filter p, x.price_rub.isSome) →
      ¬(∀ x ∈ items, x.price_rub = none) := by
    intro p hne hpr hall
    obtain ⟨x, hx⟩ := List.exists_mem_of_ne_nil _ hne
    have h1 := hpr x hx
    have h2 := hall x (List.mem_filter.mp hx).1
    rw [h2] at h1
    simp at h1
  simp only [pickPool]
  split
  case isTrue h =>
    refine iff_of_false h (hcontra _ h ?_)
    intro x hx
    simp only [List.mem_filter, decide_eq_true_eq] at hx
    exact hx.2.2
  case isFalse h =>
    split
    case isTrue h2 =>
      refine iff_of_false h2.2 (hcontra _ h2.2 ?_)
      intro x hx
      simp only [List.mem_filter, decide_eq_true_eq] at hx
      exact hx.2.2
    case isFalse h2 =>
      split
      case isTrue h3 =>
        refine iff_of_false h3.2 (hcontra _ h3.2 ?_)
        intro x hx
        simp only [List.mem_filter, decide_eq_true_eq] at hx
        exact hx.2.2
      case isFalse h3 =>
        simp only [List.filter_eq_nil_iff]
        constructor
        · intro hall x hx
          have := hall x hx
          simpa using this
        · intro hall x hx
          simp [hall x hx]

/-- `min(pool, key=price)` characterized: the result is a pool member whose
price bounds every pool member's price from below. -/
theorem minByPrice_spec (rest : List IdxItem) :
    ∀ x : IdxItem,
      minByPrice x rest ∈ x :: rest ∧
      ∀ y ∈ x :: rest,
        (minByPrice x rest).price_rub.getD 0 ≤ y.price_rub.getD 0 := by
  induction rest with
  | nil =>
      intro x
      refine ⟨List.mem_singleton.mpr rfl, ?_⟩
      intro y hy
      rw [List.mem_singleton.mp hy]
      simp [minByPrice]
  | cons z zs ih =>
      intro x
      have hstep : minByPrice x (z :: zs) =
          minByPrice (if z.price_rub.getD 0 < x.price_rub.getD 0 then z else x)
            zs := by
        simp [minByPrice, List.foldl_cons]
      obtain ⟨ihm, ihb⟩ :=
        ih (if z.price_rub.getD 0 < x.price_rub.getD 0 then z else x)
      have hminx : (minByPrice (if z.price_rub.getD 0 < x.price_rub.getD 0
          then z else x) zs).price_rub.getD 0 ≤ x.price_rub.getD 0 := by
        refine le_trans (ihb _ (List.mem_cons_self _ _)) ?_
        split
        case isTrue hlt => exact le_of_lt hlt
        case isFalse hlt => exact le_refl _
      have hminz : (minByPrice (if z.price_rub.getD 0 < x.price_rub.getD 0
          then z else x) zs).price_rub.getD 0 ≤ z.price_rub.getD 0 := by
        refine le_trans (ihb _ (List.mem_cons_self _ _)) ?_
        split
        case isTrue hlt => exact le_refl _
        case isFalse hlt => exact le_of_not_lt hlt
      constructor
      · rw [hstep]
        rcases List.mem_cons.mp ihm with h | h
        · rw [h]
          split
          · exact List.mem_cons_of_mem _ (List.mem_cons_self _ _)
          · exact List.mem_cons_self _ _
        · exact List.mem_cons_of_mem _ (List.mem_cons_of_mem _ h)
      · intro y hy
        rw [hstep]
        rcases List.mem_cons.mp hy with rfl | hy2
        · exact hminx
        · rcases List.mem_cons.mp hy2 with rfl | hy3
          · exact hminz
          · exact ihb y (List.mem_cons_of_mem _ hy3)

/-- C7: for every item list and query deal type, `_pick_reference_price`
returns no price exactly when no item carries a price, and any price it does
return is the *minimum* price over the pool selected by the claimed
priority (priced items of the query's deal type; else priced Sale — resp.
Rent — items when the query is Sale — resp. Rent; else any priced item). -/
theorem pick_reference_price_min (items : List IdxItem) (comp_deal : Str) :
    ((pick_reference_price items comp_deal).1 = none ↔
      ∀ x ∈ items, x.price_rub = none) ∧
    (∀ q, (pick_reference_price items comp_deal).1 = some q →
      (∃ x ∈ (pickPool items (pyLower (pyStrip comp_deal))).1,
        x.price_rub = some q) ∧
      ∀ x ∈ (pickPool items (pyLower (pyStrip comp_deal))).1,
        ∀ v, x.price_rub = some v → q ≤ v) := by
  constructor
  · by_cases hi : items = []
    · subst hi
      simp [pick_reference_price]
    · unfold pick_reference_price
      rw [if_neg hi]
      split
      case _ hnil =>
        simpa using (pickPool_nil_iff items (pyLower (pyStrip comp_deal))).mp hnil
      case _ x rest hcons =>
        have hbm := (minByPrice_spec rest x).1
        have hmem : minByPrice x rest ∈
            (pickPool items (pyLower (pyStrip comp_deal))).1 := by
          rw [hcons]
          exact hbm
        have hbp := pickPool_priced items (pyLower (pyStrip comp_deal)) _ hmem
        have hxi : x ∈ items := by
          refine pickPool_subset items (pyLower (pyStrip comp_deal)) x ?_
          rw [hcons]
          exact List.mem_cons_self _ _
        have hxp : x.price_rub.isSome := by
          refine pickPool_priced items (pyLower (pyStrip comp_deal)) x ?_
          rw [hcons]
          exact List.mem_cons_self _ _
        simp only []
        constructor
        · intro hnone
          rw [hnone] at hbp
          simp at hbp
        · intro hall
          rw [hall x hxi] at hxp
          simp at hxp
  · intro q hq
    by_cases hi : items = []
    · subst hi
      simp [pick_reference_price] at hq
    · unfold pick_reference_price at hq
      rw [if_neg hi] at hq
      split at hq
      case _ hnil => simp at hq
      case _ x rest hcons =>
        simp only [] at hq
        obtain ⟨hbm, hbb⟩ := minByPrice_spec rest x
        have hmem : minByPrice x rest ∈
            (pickPool items (pyLower (pyStrip comp_deal))).1 := by
          rw [hcons]
          exact hbm
        refine ⟨⟨minByPrice x rest, hmem, hq⟩, ?_⟩
        intro y hy v hv
        have hb := hbb y (by rw [hcons] at hy; exact hy)
        rw [hq, hv] at hb
        simpa using hb

/-- An empty components record, for catalog items in concrete examples. -/
def emptyComp : AddressComponents :=
  { raw := [], norm := [], street_key := [], street_key_bag := [],
    house_from := none, house_to := none, house_letter := [], corp := none,
    str := none }

def refItemA : IdxItem :=
  ⟨⟨chars "sale", [], chars "a", none, some 700, chars "u1"⟩, emptyComp⟩

def refItemB : IdxItem :=
  ⟨⟨chars "sale", [], chars "a", none, some 500, chars "u2"⟩, emptyComp⟩

/-- Witness for C7 on a two-item catalog: the returned reference price 500 is
bounded by the other pool price 700, by the theorem's minimality clause. -/
theorem pick_reference_price_min_witness : (500 : ℚ) ≤ 700 :=
  ((pick_reference_price_min [refItemA, refItemB] (chars "sale")).2 500
      (by decide)).2 refItemA (by decide) 700 (by decide)

/-! ## Cross-source clustering (`build_union_board.py`)

`Listing` models the dataclass with the fields the clustering pipeline
(`find_matching_object`, `build_union_objects`, `UnionObject.add_listing`)
reads; the remaining dataclass fields (addresses, links, labels) are carried
around unread by these functions and are omitted.  `UnionObject.listings` is
the `competitor → Listing` dict as an insertion-ordered association list. -/

namespace Union

/-- `AREA_TOL` of build_union_board.py (line 38) — note it differs from the
engine's 5. -/
def AREA_TOL : ℚ := 3

structure Listing where
  competitor : Str
  deal_type : Str
  area_m2 : Option ℚ
  price_rub : Option ℚ
  position_global : Option ℚ
  district_norm : Str
  address_key : Str
  deriving Repr, DecidableEq

structure UnionObject where
  address_key : Str
  area_ref : Option ℚ
  listings : List (Str × Listing)
  area_values : List ℚ
  deriving Repr, DecidableEq

/-- Dict read. -/
def dictGet : List (Str × Listing) → Str → Option Listing
  | [], _ => none
  | (k', v) :: rest, k => if k' = k then some v else dictGet rest k

/-- Dict write: an existing key keeps its insertion position. -/
def dictSet : List (Str × Listing) → Str → Listing → List (Str × Listing)
  | [], k, v => [(k, v)]
  | (k', v') :: rest, k, v =>
      if k' = k then (k, v) :: rest else (k', v') :: dictSet rest k v

/-- `UnionObject.add_listing`. -/
def add_listing (o : UnionObject) (lst : Listing) : UnionObject :=
  let listings :=
    match dictGet o.listings lst.competitor with
    | none => dictSet o.listings lst.competitor lst
    | some cur =>
        let cur_pos := cur.position_global.getD 1000000000000
        let new_pos := lst.position_global.getD 1000000000000
        if new_pos < cur_pos then dictSet o.listings lst.competitor lst
        else o.listings
  match lst.area_m2 with
  | some a =>
      { o with listings := listings, area_values := o.area_values ++ [a],
               area_ref := some a }
  | none => { o with listings := listings }

/-- `is_unknown_district`. -/
def is_unknown_district (norm_value : Str) : Bool :=
  let s := pyLower (pyStrip norm_value)
  s = [] || (chars "не определ").isPrefixOf s

/-- The `district_compatible` closure inside `find_matching_object`. -/
def district_compatible (obj : UnionObject) (lst : Listing) : Bool :=
  if is_unknown_district lst.district_norm then true
  else
    let known := ((obj.listings.map Prod.snd).filter fun x =>
      !is_unknown_district x.district_norm).map Listing.district_norm
    if known = [] then true else known.contains lst.district_norm

/-- The step-1 best-candidate loop of `find_matching_object`:
district-compatible, both areas numeric, `d ≤ AREA_TOL`, strictly closer than
the best so far (so the first minimum wins ties). -/
def bestLoop (lst : Listing) : List UnionObject → Option UnionObject × ℚ →
    Option UnionObject × ℚ
  | [], acc => acc
  | obj :: rest, acc =>
      if !district_compatible obj lst then bestLoop lst rest acc
      else
        match lst.area_m2, obj.area_ref with
        | some a, some r =>
            let d := Parser.qabs (a - r)
            if d ≤ AREA_TOL ∧ d < acc.2 then bestLoop lst rest (some obj, d)
            else bestLoop lst rest acc
        | _, _ => bestLoop lst rest acc

def find_matching_object (pool : List UnionObject) (lst : Listing) :
    Option UnionObject :=
  if pool = [] then none
  else
    match (bestLoop lst pool (none, 1000000000)).1 with
    | some best => some best
    | none =>
        match pool with
        | [c] =>
            if district_compatible c lst then
              match lst.area_m2, c.area_ref with
              | some a, some r => if Parser.qabs (a - r) ≤ 15 then some c else none
              | none, _ => some c
              | some _, none => none
            else none
        | _ => none

/-- Replace the first occurrence of `tgt` in the pool.  `find_matching_object`
always returns the *first* pool element structurally equal to its result
(ties in the best loop keep the earlier object; the single-candidate branches
return `pool[0]`), so this models Python's in-place mutation of the returned
object exactly. -/
def replaceFirst : List UnionObject → UnionObject → UnionObject →
    List UnionObject
  | [], _, _ => []
  | x :: rest, tgt, v =>
      if x = tgt then v :: rest else x :: replaceFirst rest tgt v

/-- The pool update of one `build_union_objects` loop iteration: attach to the
found cluster or append a fresh one (Python appends the new object and then
calls `add_listing` on it). -/
def stepPool (pool : List UnionObject) (lst : Listing) : List UnionObject :=
  match find_matching_object pool lst with
  | some obj => replaceFirst pool obj (add_listing obj lst)
  | none =>
      pool ++ [add_listing
        { address_key := lst.address_key, area_ref := lst.area_m2,
          listings := [], area_values := [] } lst]

abbrev Groups := List (Str × List UnionObject)

def groupsGet : Groups → Str → List UnionObject
  | [], _ => []
  | (k', v) :: rest, k => if k' = k then v else groupsGet rest k

def groupsSet : Groups → Str → List UnionObject → Groups
  | [], k, v => [(k, v)]
  | (k', v') :: rest, k, v =>
      if k' = k then (k, v) :: rest else (k', v') :: groupsSet rest k v

/-- One iteration of the `build_union_objects` loop (`groups.setdefault`,
find, attach-or-create). -/
def unionStep (groups : Groups) (lst : Listing) : Groups :=
  let key := lst.address_key
  groupsSet groups key (stepPool (groupsGet groups key) lst)

def build_union_objects (listings : List Listing) : List UnionObject :=
  ((listings.foldl unionStep []).map Prod.snd).flatten

end Union

/-! # Settling the claims -/

/-! ## C2 / C10: clustering attach rules -/

namespace Union

/-- The area distance the clustering loop computes; `10^9` (larger than every
tolerance in play) when either side lacks a numeric area. -/
def areaDist (lst : Listing) (o : UnionObject) : ℚ :=
  match lst.area_m2, o.area_ref with
  | some a, some r => Parser.qabs (a - r)
  | _, _ => 1000000000

/-- Step-1 eligibility of a cluster for a listing: district-compatible and
`area_ref` within `AREA_TOL` (3) of the listing's area (the tolerance bound
also forces both areas numeric, since the sentinel distance exceeds it). -/
def Eligible (lst : Listing) (o : UnionObject) : Prop :=
  district_compatible o lst = true ∧ areaDist lst o ≤ AREA_TOL

theorem areaTol_lt_sentinel : AREA_TOL < (1000000000 : ℚ) := by
  norm_num [AREA_TOL]

/-- Full characterization of the step-1 best-candidate loop, by induction on
the pool with a general accumulator: the running distance only decreases and
bounds every eligible candidate; a returned object is either the incumbent
or an eligible pool member realizing the final distance; an incumbent is
never dropped; and an eligible candidate strictly better than the incumbent
guarantees a result. -/
theorem bestLoop_spec (lst : Listing) (pool : List UnionObject) :
    ∀ acc : Option UnionObject × ℚ,
      ((bestLoop lst pool acc).2 ≤ acc.2) ∧
      (∀ o' ∈ pool, Eligible lst o' →
        (bestLoop lst pool acc).2 ≤ areaDist lst o') ∧
      (∀ o, (bestLoop lst pool acc).1 = some o →
        (acc.1 = some o ∧ (bestLoop lst pool acc).2 = acc.2) ∨
        (o ∈ pool ∧ Eligible lst o ∧
          (bestLoop lst pool acc).2 = areaDist lst o)) ∧
      (acc.1.isSome → (bestLoop lst pool acc).1.isSome) ∧
      ((∃ o' ∈ pool, Eligible lst o' ∧ areaDist lst o' < acc.2) →
        (bestLoop lst pool acc).1.isSome) := by
  induction pool with
  | nil =>
      intro acc
      refine ⟨le_refl _, by simp, fun o h => .inl ⟨h, rfl⟩, fun h => h, ?_⟩
      rintro ⟨o', ho', _⟩
      simp at ho'
  | cons obj rest ih =>
      intro acc
      by_cases hc : district_compatible obj lst = true
      case neg =>
        rw [Bool.not_eq_true] at hc
        have hb : bestLoop lst (obj :: rest) acc = bestLoop lst rest acc := by
          simp [bestLoop, hc]
        obtain ⟨i1, i2, i3, i4, i5⟩ := ih acc
        rw [hb]
        refine ⟨i1, ?_, ?_, i4, ?_⟩
        · intro o' ho' he
          rcases List.mem_cons.mp ho' with rfl | hm
          · exact absurd he.1 (by simp [hc])
          · exact i2 o' hm he
        · intro o ho
          rcases i3 o ho with h | ⟨hm, he, hd⟩
          · exact .inl h
          · exact .inr ⟨List.mem_cons_of_mem _ hm, he, hd⟩
        · rintro ⟨o', ho', he, hlt⟩
          rcases List.mem_cons.mp ho' with rfl | hm
          · exact absurd he.1 (by simp [hc])
          · exact i5 ⟨o', hm, he, hlt⟩
      case pos =>
        have hskip : ∀ (hb : bestLoop lst (obj :: rest) acc = bestLoop lst rest acc),
            ¬Eligible lst obj →
            ((bestLoop lst (obj :: rest) acc).2 ≤ acc.2) ∧
            (∀ o' ∈ obj :: rest, Eligible lst o' →
              (bestLoop lst (obj :: rest) acc).2 ≤ areaDist lst o') ∧
            (∀ o, (bestLoop lst (obj :: rest) acc).1 = some o →
              (acc.1 = some o ∧ (bestLoop lst (obj :: rest) acc).2 = acc.2) ∨
              (o ∈ obj :: rest ∧ Eligible lst o ∧
                (bestLoop lst (obj :: rest) acc).2 = areaDist lst o)) ∧
            (acc.1.isSome → (bestLoop lst (obj :: rest) acc).1.isSome) ∧
            ((∃ o' ∈ obj :: rest, Eligible lst o' ∧ areaDist lst o' < acc.2) →
              (bestLoop lst (obj :: rest) acc).1.isSome) := by
          intro hb hne
          obtain ⟨i1, i2, i3, i4, i5⟩ := ih acc
          rw [hb]
          refine ⟨i1, ?_, ?_, i4, ?_⟩
          · intro o' ho' he
            rcases List.mem_cons.mp ho' with rfl | hm
            · exact absurd he hne
            · exact i2 o' hm he
          · intro o ho
            rcases i3 o ho with h | ⟨hm, he, hd⟩
            · exact .inl h
            · exact .inr ⟨List.mem_cons_of_mem _ hm, he, hd⟩
          · rintro ⟨o', ho', he, hlt⟩
            rcases List.mem_cons.mp ho' with rfl | hm
            · exact absurd he hne
            · exact i5 ⟨o', hm, he, hlt⟩
        rcases hA : lst.area_m2 with _ | a
        · refine hskip (by simp [bestLoop, hc, hA]) ?_
          rintro ⟨-, hd⟩
          rw [areaDist, hA] at hd
          exact absurd hd (by norm_num [AREA_TOL])
        · rcases hR : obj.area_ref with _ | r
          · refine hskip (by simp [bestLoop, hc, hA, hR]) ?_
            rintro ⟨-, hd⟩
            rw [areaDist, hA, hR] at hd
            exact absurd hd (by norm_num [AREA_TOL])
          · have hdist : areaDist lst obj = Parser.qabs (a - r) := by
              rw [areaDist, hA, hR]
            by_cases hcond : Parser.qabs (a - r) ≤ AREA_TOL ∧
                Parser.qabs (a - r) < acc.2
            · have hb : bestLoop lst (obj :: rest) acc =
                  bestLoop lst rest (some obj, Parser.qabs (a - r)) := by
                simp [bestLoop, hc, hA, hR, hcond]
              obtain ⟨i1, i2, i3, i4, i5⟩ := ih (some obj, Parser.qabs (a - r))
              rw [hb]
              have hobjElig : Eligible lst obj := ⟨hc, by rw [hdist]; exact hcond.1⟩
              refine ⟨le_trans i1 (le_of_lt hcond.2), ?_, ?_, ?_, ?_⟩
              · intro o' ho' he
                rcases List.mem_cons.mp ho' with rfl | hm
                · rw [hdist]; exact i1
                · exact i2 o' hm he
              · intro o ho
                rcases i3 o ho with ⟨h1, h2⟩ | ⟨hm, he, hd⟩
                · refine .inr ⟨?_, ?_, ?_⟩
                  · rw [← Option.some.inj h1]; exact List.mem_cons_self _ _
                  · rw [← Option.some.inj h1]; exact hobjElig
                  · rw [h2, ← Option.some.inj h1, hdist]
                · exact .inr ⟨List.mem_cons_of_mem _ hm, he, hd⟩
              · intro _; exact i4 (by simp)
              · intro _; exact i4 (by simp)
            · have hb : bestLoop lst (obj :: rest) acc = bestLoop lst rest acc := by
                simp only [bestLoop, hc, hA, hR, Bool.not_true, Bool.false_eq_true,
                  if_false]
                rw [if_neg hcond]
              obtain ⟨i1, i2, i3, i4, i5⟩ := ih acc
              rw [hb]
              refine ⟨i1, ?_, ?_, i4, ?_⟩
              · intro o' ho' he
                rcases List.mem_cons.mp ho' with rfl | hm
                · have hle : Parser.qabs (a - r) ≤ AREA_TOL := by
                    rw [← hdist]; exact he.2
                  have hge : acc.2 ≤ Parser.qabs (a - r) := by
                    by_contra hlt
                    exact hcond ⟨hle, lt_of_not_le hlt⟩
                  rw [hdist]
                  exact le_trans i1 hge
                · exact i2 o' hm he
              · intro o ho
                rcases i3 o ho with h | ⟨hm, he, hd⟩
                · exact .inl h
                · exact .inr ⟨List.mem_cons_of_mem _ hm, he, hd⟩
              · rintro ⟨o', ho', he, hlt⟩
                rcases List.mem_cons.mp ho' with rfl | hm
                · exact absurd ⟨by rw [← hdist]; exact he.2, by rw [← hdist]; exact hlt⟩ hcond
                · exact i5 ⟨o', hm, he, hlt⟩


/-- The fresh cluster `build_union_objects` creates when no pool member
accepts the listing. -/
def freshCluster (lst : Listing) : UnionObject :=
  { address_key := lst.address_key, area_ref := lst.area_m2,
    listings := [], area_values := [] }

/-- C2 (amended): within an address-key pool, `find_matching_object` attaches
a listing only to a district-compatible cluster that is either area-eligible
(`area_ref` within 3 of the listing's area) or the pool's single cluster
under one of the two fallbacks (both areas numeric and within 15, or the
listing has no area); when some cluster is area-eligible, an eligible cluster
of minimal area distance is returned; and when nothing matches,
`build_union_objects`'s step appends a fresh cluster to the pool. -/
theorem find_matching_object_attach_spec (pool : List UnionObject)
    (lst : Listing) :
    (∀ obj, find_matching_object pool lst = some obj →
        obj ∈ pool ∧ district_compatible obj lst = true ∧
          (areaDist lst obj ≤ AREA_TOL ∨
           (pool = [obj] ∧
             ((lst.area_m2.isSome ∧ obj.area_ref.isSome ∧
               areaDist lst obj ≤ 15) ∨ lst.area_m2 = none)))) ∧
    ((∃ o ∈ pool, Eligible lst o) →
        ∃ obj, find_matching_object pool lst = some obj ∧ Eligible lst obj ∧
          ∀ o' ∈ pool, Eligible lst o' → areaDist lst obj ≤ areaDist lst o') ∧
    (find_matching_object pool lst = none →
        stepPool pool lst = pool ++ [add_listing (freshCluster lst) lst]) := by
  refine ⟨?_, ?_, ?_⟩
  · intro obj hfind
    unfold find_matching_object at hfind
    by_cases hp : pool = []
    · simp [hp] at hfind
    · rw [if_neg hp] at hfind
      obtain ⟨i1, i2, i3, i4, i5⟩ := bestLoop_spec lst pool (none, 1000000000)
      rcases hbl : (bestLoop lst pool (none, 1000000000)).1 with _ | best
      · rw [hbl] at hfind
        rcases pool with _ | ⟨c, rest⟩
        · exact absurd rfl hp
        rcases rest with _ | ⟨c2, rest2⟩
        · simp only [] at hfind
          by_cases hc : district_compatible c lst = true
          · rw [if_pos hc] at hfind
            rcases hA : lst.area_m2 with _ | a
            · rw [hA] at hfind
              simp only [Option.some.injEq] at hfind
              subst hfind
              exact ⟨by simp, hc, .inr ⟨rfl, .inr rfl⟩⟩
            · rcases hR : c.area_ref with _ | r
              · rw [hA, hR] at hfind
                simp at hfind
              · rw [hA, hR] at hfind
                simp only [] at hfind
                by_cases h15 : Parser.qabs (a - r) ≤ 15
                · rw [if_pos h15] at hfind
                  simp only [Option.some.injEq] at hfind
                  subst hfind
                  refine ⟨by simp, hc,
                    .inr ⟨rfl, .inl ⟨by simp [hA], by simp [hR], ?_⟩⟩⟩
                  rw [areaDist, hA, hR]
                  exact h15
                · rw [if_neg h15] at hfind
                  simp at hfind
          · rw [if_neg hc] at hfind
            simp at hfind
        · simp at hfind
      · rw [hbl] at hfind
        simp only [] at hfind
        have hbo : best = obj := Option.some.inj hfind
        rcases i3 best hbl with ⟨h1, _⟩ | ⟨hm, he, _⟩
        · simp at h1
        · rw [← hbo]
          exact ⟨hm, he.1, .inl he.2⟩
  · rintro ⟨o, ho, he⟩
    have hp : pool ≠ [] := by rintro rfl; simp at ho
    obtain ⟨i1, i2, i3, i4, i5⟩ := bestLoop_spec lst pool (none, 1000000000)
    have hsome : (bestLoop lst pool (none, 1000000000)).1.isSome :=
      i5 ⟨o, ho, he, lt_of_le_of_lt he.2 areaTol_lt_sentinel⟩
    rcases hbl : (bestLoop lst pool (none, 1000000000)).1 with _ | best
    · rw [hbl] at hsome; simp at hsome
    · refine ⟨best, ?_, ?_, ?_⟩
      · unfold find_matching_object
        rw [if_neg hp, hbl]
      · rcases i3 best hbl with ⟨h1, _⟩ | ⟨_, heb, _⟩
        · simp at h1
        · exact heb
      · intro o' ho' he'
        rcases i3 best hbl with ⟨h1, _⟩ | ⟨_, _, hd⟩
        · simp at h1
        · rw [← hd]
          exact i2 o' ho' he'
  · intro hfind
    simp [stepPool, hfind, freshCluster]

/-- C2 counterexample pool/listing: a single cluster with `area_ref = 50`
and a listing with area 60 — outside the 3-unit tolerance the claim allows,
yet attached (the hidden 15-unit single-cluster fallback). -/
def cexObj : UnionObject :=
  { address_key := chars "k", area_ref := some 50, listings := [],
    area_values := [] }

def cexLst : Listing :=
  { competitor := chars "a", deal_type := chars "sale", area_m2 := some 60,
    price_rub := none, position_global := none, district_norm := [],
    address_key := chars "k" }

/-- A cluster whose only member carries the district `центральный`. -/
def cexObjD : UnionObject :=
  { address_key := chars "k", area_ref := some 50,
    listings := [(chars "b",
      { competitor := chars "b", deal_type := chars "sale", area_m2 := some 50,
        price_rub := none, position_global := none,
        district_norm := chars "центральный", address_key := chars "k" })],
    area_values := [50] }

/-- A no-area listing from the district `невский`. -/
def cexLstD : Listing :=
  { competitor := chars "a", deal_type := chars "sale", area_m2 := none,
    price_rub := none, position_global := none,
    district_norm := chars "невский", address_key := chars "k" }

/-- C2 counterexample: (i) with a single cluster at `area_ref = 50`, a
listing with area 60 attaches although the difference 10 exceeds the claimed
3-unit tolerance and the listing *does* carry an area; (ii) a no-area listing
does *not* attach to the pool's single cluster when their districts conflict,
although the claim's no-area fallback carries no district condition. -/
theorem find_matching_soft_attach_cex :
    (find_matching_object [cexObj] cexLst = some cexObj ∧
      cexLst.area_m2 = some 60 ∧ cexObj.area_ref = some 50 ∧
      ¬(areaDist cexLst cexObj ≤ AREA_TOL)) ∧
    (find_matching_object [cexObjD] cexLstD = none ∧
      cexLstD.area_m2 = none) :=
  ⟨⟨by decide, by decide, by decide, by decide⟩, by decide, by decide⟩

/-- C10: when the pool holds exactly one district-compatible cluster and both
areas are numeric, a difference of at most 15 area units attaches the listing
to that cluster — even beyond the 3-unit tolerance — and the build step then
keeps the pool at one cluster instead of creating a second. -/
theorem single_pool_soft_attach (c : UnionObject) (lst : Listing) (a r : ℚ)
    (hc : district_compatible c lst = true) (ha : lst.area_m2 = some a)
    (hr : c.area_ref = some r) (hd : Parser.qabs (a - r) ≤ 15) :
    find_matching_object [c] lst = some c ∧ (stepPool [c] lst).length = 1 := by
  have hmain : find_matching_object [c] lst = some c := by
    unfold find_matching_object
    rw [if_neg (by simp)]
    by_cases hq : Parser.qabs (a - r) ≤ AREA_TOL ∧
        Parser.qabs (a - r) < (1000000000 : ℚ)
    · have hbl : bestLoop lst [c] (none, 1000000000) =
          (some c, Parser.qabs (a - r)) := by
        simp [bestLoop, hc, ha, hr, hq]
      rw [hbl]
    · have hbl : bestLoop lst [c] (none, 1000000000) = (none, 1000000000) := by
        simp only [bestLoop, hc, Bool.not_true, Bool.false_eq_true, if_false,
          ha, hr]
        rw [if_neg hq]
      rw [hbl]
      simp only [hc, if_true, ha, hr]
      rw [if_pos hd]
  refine ⟨hmain, ?_⟩
  simp [stepPool, hmain, replaceFirst]

/-- Witness for C2's amended theorem: the attach conditions hold at the
counterexample pool, where the 15-unit single-cluster fallback fires. -/
theorem find_matching_object_attach_spec_witness :
    cexObj ∈ [cexObj] ∧ district_compatible cexObj cexLst = true ∧
      (areaDist cexLst cexObj ≤ AREA_TOL ∨
        ([cexObj] = [cexObj] ∧
          ((cexLst.area_m2.isSome ∧ cexObj.area_ref.isSome ∧
            areaDist cexLst cexObj ≤ 15) ∨ cexLst.area_m2 = none))) :=
  (find_matching_object_attach_spec [cexObj] cexLst).1 cexObj (by decide)

/-- Witness for C10 at the counterexample pool: areas 60 vs 50. -/
theorem single_pool_soft_attach_witness :
    find_matching_object [cexObj] cexLst = some cexObj ∧
      (stepPool [cexObj] cexLst).length = 1 :=
  single_pool_soft_attach cexObj cexLst 60 50 (by decide) (by decide)
    (by decide) (by decide)

end Union

/-! ## C3: house-range invariant of `extract_components` -/

/-- Structural form of the C3 invariant that does hold: the two bounds of the
assembled record are present or absent together. -/
theorem mkComponents_house_iff (raw a : Str) (keys : Str × Str)
    (hd : Option HouseData) :
    ((mkComponents raw a keys hd).house_from = none ↔
      (mkComponents raw a keys hd).house_to = none) := by
  cases hd <;> simp [mkComponents]

/-- C3 counterexample: the address `"ул тест, 9-7"` carries a decreasing
explicit range, and `_parse_house_from_segment` copies the two numbers as
written, so the extracted components have `house_from = 9 > 7 = house_to`,
refuting the claimed `house_from ≤ house_to` invariant. -/
theorem extract_house_order_cex :
    ((extract_components (some (chars "ул тест, 9-7"))).map
        (fun c => (c.house_from, c.house_to)) = some (some 9, some 7)) ∧
    ¬(9 ≤ 7) :=
  ⟨by decide, by decide⟩

/-- C3 (amended): for every address string, the `AddressComponents` produced
by `extract_components` satisfy `house_to` absent ↔ `house_from` absent (and
so both bounds always come from the same parsed house block); the
`house_from ≤ house_to` half of the claim fails for addresses written with a
decreasing range such as `"9-7"` (see the counterexample). -/
theorem extract_components_house_iff (address : Option Str)
    (c : AddressComponents) (h : extract_components address = some c) :
    c.house_from = none ↔ c.house_to = none := by
  cases address with
  | none => exact absurd h (by simp [extract_components])
  | some raw =>
      have h' : extractRaw raw = some c := h
      unfold extractRaw at h'
      split at h'
      · exact absurd h' (by simp)
      · have hc := Option.some.inj h'
        rw [← hc]
        exact mkComponents_house_iff _ _ _ _

/-- Witness for C3's amended theorem at the concrete address
`"ул тест, 9-7"`, whose extraction has both bounds present. -/
theorem extract_components_house_iff_witness :
    ((some 9 : Option Nat) = none ↔ (some 7 : Option Nat) = none) := by
  have h := extract_components_house_iff (some (chars "ул тест, 9-7"))
    { raw := chars "ул тест, 9-7", norm := chars "ул тест, 9-7",
      street_key := chars "тест", street_key_bag := chars "тест",
      house_from := some 9, house_to := some 7, house_letter := [],
      corp := none, str := none } (by decide)
  exact h

/-! ## C4: idempotence of the normalization pipeline -/

/-- The address normalization the claim describes: `norm_text` (Unicode
compose, lowercase, `ё→е`, punctuation stripping, comma spacing, whitespace
collapse) followed by the ordered street-type synonym rewriting — exactly the
composition `extract_components` applies (robot.py line 332). -/
def normalizeAddr (s : Str) : Str := normalize_street_part (norm_text s)

/-- C4 evaluation at the failing input: the synonym rule `пр-кт → пр`
rewrites only the first of two overlapping occurrences in
`"пр-кт-кт"` (re.sub's non-overlapping scan), leaving `"пр-кт"`, which a
second pass rewrites to `"пр"` — so the pipeline is *not* idempotent, though
the spec requires it. -/
theorem normalize_pipeline_not_idempotent :
    normalizeAddr (chars "пр-кт-кт") = chars "пр-кт" ∧
    normalizeAddr (normalizeAddr (chars "пр-кт-кт")) = chars "пр" ∧
    normalizeAddr (normalizeAddr (chars "пр-кт-кт")) ≠
      normalizeAddr (chars "пр-кт-кт") :=
  ⟨by decide, by decide, by decide⟩

/-! ## C5: `houses_overlap` against closed-interval intersection -/

/-- C5 counterexample: both addresses parse, `houses_overlap` returns `true`,
yet the closed interval `[9, 7]` is empty (`Finset.Icc 9 7 = ∅`), so it
cannot intersect `[5, 10]` — the claimed "true iff the closed intervals
intersect" fails on decreasing ranges. -/
theorem houses_overlap_interval_cex :
    ((extract_components (some (chars "ул тест, 9-7"))).map
        (fun c => (c.house_from, c.house_to)) = some (some 9, some 7)) ∧
    ((extract_components (some (chars "ул тест, 5-10"))).map
        (fun c => (c.house_from, c.house_to)) = some (some 5, some 10)) ∧
    ((extract_components (some (chars "ул тест, 9-7"))).bind
        (fun a => (extract_components (some (chars "ул тест, 5-10"))).map
          fun b => houses_overlap a b) = some true) ∧
    (Finset.Icc 9 7 ∩ Finset.Icc 5 10 : Finset ℕ) = ∅ :=
  ⟨by decide, by decide, by decide, by decide⟩

/-- C5 (amended): for components whose ranges are written non-decreasing
(`house_from ≤ house_to`, which the extractor does not enforce — see the
counterexample), `houses_overlap` is true iff the closed intervals
intersect; it is false whenever either side has no house number; it is
symmetric; and the range `"7-9"` overlaps the point house `"7"`. -/
theorem houses_overlap_spec :
    (∀ a b : AddressComponents, ∀ af a2 bf b2 : Nat,
        a.house_from = some af → a.house_to = some a2 → af ≤ a2 →
        b.house_from = some bf → b.house_to = some b2 → bf ≤ b2 →
        (houses_overlap a b = true ↔
          ∃ x : Nat, af ≤ x ∧ x ≤ a2 ∧ bf ≤ x ∧ x ≤ b2)) ∧
    (∀ a b : AddressComponents,
        a.house_from = none ∨ b.house_from = none →
        houses_overlap a b = false) ∧
    (∀ a b : AddressComponents, houses_overlap a b = houses_overlap b a) ∧
    ((extract_components (some (chars "жуковского ул, 7-9"))).bind
        (fun a => (extract_components (some (chars "улица жуковского, 7"))).map
          fun b => houses_overlap a b) = some true) := by
  refine ⟨?_, ?_, ?_, by decide⟩
  · intro a b af a2 bf b2 haf ha2 h1 hbf hb2 h2
    have hform : houses_overlap a b = true ↔ bf ≤ a2 ∧ af ≤ b2 := by
      simp only [houses_overlap, haf, ha2, hbf, hb2]
      simp [not_or]
      try omega
    rw [hform]
    constructor
    · rintro ⟨u, v⟩
      exact ⟨max af bf, by omega, by omega, by omega, by omega⟩
    · rintro ⟨x, hx1, hx2, hx3, hx4⟩
      exact ⟨by omega, by omega⟩
  · intro a b h
    rcases h with h | h
    · cases hb : b.house_from <;> simp [houses_overlap, h, hb]
    · cases ha : a.house_from <;> simp [houses_overlap, h, ha]
  · intro a b
    rcases ha : a.house_from with _ | a1 <;> rcases hb : b.house_from with _ | b1 <;>
      rcases hc : a.house_to with _ | a2 <;> rcases hd : b.house_to with _ | b2 <;>
        simp [houses_overlap, ha, hb, hc, hd, Bool.or_comm]

/-- Witness for C5's amended theorem: `"жуковского ул, 7-9"` vs
`"улица жуковского, 7"` — the overlap test agrees with interval
intersection at `x = 7`. -/
theorem houses_overlap_spec_witness :
    houses_overlap
        { raw := chars "жуковского ул, 7-9", norm := chars "жуковского ул, 7-9",
          street_key := chars "жуковского", street_key_bag := chars "жуковского",
          house_from := some 7, house_to := some 9, house_letter := [],
          corp := none, str := none }
        { raw := chars "улица жуковского, 7", norm := chars "ул жуковского, 7",
          street_key := chars "жуковского", street_key_bag := chars "жуковского",
          house_from := some 7, house_to := some 7, house_letter := [],
          corp := none, str := none } = true ↔
      ∃ x : Nat, 7 ≤ x ∧ x ≤ 9 ∧ 7 ≤ x ∧ x ≤ 7 :=
  houses_overlap_spec.1 _ _ 7 9 7 7 rfl rfl (by decide) rfl rfl (by decide)

/-! ## C6: compact vs verbose house notation -/

/-- C6: `"70к1с1"` and `"70 корпус 1 стр 1"` extract to identical house
components: `house_from = house_to = 70`, `corp = "1"`, `building = "1"`,
and equal (empty) house letters. -/
theorem compact_verbose_house_equal :
    ((extract_components (some (chars "70к1с1"))).map
        (fun c => (c.house_from, c.house_to, c.corp, c.str)) =
      some (some 70, some 70, some (chars "1"), some (chars "1"))) ∧
    ((extract_components (some (chars "70 корпус 1 стр 1"))).map
        (fun c => (c.house_from, c.house_to, c.corp, c.str)) =
      some (some 70, some 70, some (chars "1"), some (chars "1"))) ∧
    ((extract_components (some (chars "70к1с1"))).map
        (fun c => c.house_letter) =
      (extract_components (some (chars "70 корпус 1 стр 1"))).map
        (fun c => c.house_letter)) :=
  ⟨by decide, by decide, by decide⟩

/-! ## C8: totality and the closed verdict vocabulary of `compare_one` -/

theorem mkVerdict_result (r : Str) (pool : List IdxItem) (cp : Option ℚ)
    (cd : Str) (n : Nat) : (mkVerdict r pool cp cd n).result = r := rfl

theorem notFoundResult_result (reason : Str) :
    (notFoundResult reason).result = chars "Нет у нас" := rfl

theorem compare_core_result_mem (cc : AddressComponents)
    (area price : Option ℚ) (deal : Str) (idx : IndexT) :
    (compare_core cc area price deal idx).result ∈ verdictStrings := by
  unfold compare_core compare_tail
  dsimp only
  split
  · rw [notFoundResult_result]
    decide
  · split
    · rw [mkVerdict_result]
      decide
    · split
      · rw [mkVerdict_result]
        decide
      · split
        · rw [mkVerdict_result]
          decide
        · rw [mkVerdict_result]
          decide

/-- C8: `compare_one` is a total function — in this embedding all Python
partiality (missing dict keys, `None` fields, unparseable addresses) is
typed away, matching the code, which guards every access — whose `result`
always lies in the closed five-verdict vocabulary; and any listing whose
address is absent or yields empty street keys on both key forms gets the
NotFound record with the diagnostic reason `"Адрес не разобран"` rather
than an error. -/
theorem compare_one_total_verdicts (row : CompRow) (idx : IndexT) :
    ((compare_one row idx).result ∈ verdictStrings) ∧
    (extract_components row.address = none →
      compare_one row idx = notFoundResult (chars "Адрес не разобран")) ∧
    (∀ cc, extract_components row.address = some cc →
      cc.street_key = [] → cc.street_key_bag = [] →
      compare_one row idx = notFoundResult (chars "Адрес не разобран")) := by
  refine ⟨?_, ?_, ?_⟩
  · rcases h : extract_components row.address with _ | cc
    · simp only [compare_one, h]
      rw [notFoundResult_result]
      decide
    · simp only [compare_one, h]
      split
      · rw [notFoundResult_result]
        decide
      · exact compare_core_result_mem cc row.area_m2 row.price_rub
          (dealNorm row) idx
  · intro h
    simp [compare_one, h]
  · intro cc h hk hb
    simp [compare_one, h, hk, hb]

/-- Witness for C8: a listing with no address at all resolves to the
NotFound verdict with the diagnostic reason. -/
def emptyRow : CompRow :=
  { address := none, area_m2 := none, price_rub := none, deal_type := none }

theorem compare_one_total_verdicts_witness :
    compare_one emptyRow [] = notFoundResult (chars "Адрес не разобран") :=
  (compare_one_total_verdicts emptyRow []).2.1 (by decide)

/-! ## C9: the parsed house letter never influences matching -/

/-- Two parsed component records that agree on every field the matcher reads;
only `house_letter` (and the raw/normalized text) may differ. -/
def sameExceptLetter (c c' : AddressComponents) : Prop :=
  c.street_key = c'.street_key ∧ c.street_key_bag = c'.street_key_bag ∧
    c.house_from = c'.house_from ∧ c.house_to = c'.house_to ∧
    c.corp = c'.corp ∧ c.str = c'.str

instance sameExceptLetterDec (c c' : AddressComponents) :
    Decidable (sameExceptLetter c c') := by
  unfold sameExceptLetter
  infer_instance

theorem houses_overlap_congr {a a' b b' : AddressComponents}
    (ha : sameExceptLetter a a') (hb : sameExceptLetter b b') :
    houses_overlap a b = houses_overlap a' b' := by
  unfold houses_overlap
  rw [ha.2.2.1, ha.2.2.2.1, hb.2.2.1, hb.2.2.2.1]

theorem part_relation_congr {a a' b b' : AddressComponents} (f : PartField)
    (ha : sameExceptLetter a a') (hb : sameExceptLetter b b') :
    part_relation a b f = part_relation a' b' f := by
  cases f
  · simp only [part_relation, getPart, ha.2.2.2.2.1, hb.2.2.2.2.1]
  · simp only [part_relation, getPart, ha.2.2.2.2.2, hb.2.2.2.2.2]

/-- Item transform rewriting only the parsed house letter, by an arbitrary
per-item choice of new letter. -/
def setItemLetter (g : IdxItem → Str) (x : IdxItem) : IdxItem :=
  { x with comp := { x.comp with house_letter := g x } }

/-- An index whose items' components have had their house letters rewritten. -/
def mapIndexLetters (g : IdxItem → Str) (idx : IndexT) : IndexT :=
  idx.map fun e => (e.1, e.2.map (setItemLetter g))

theorem setItemLetter_comp_rel (g : IdxItem → Str) (x : IdxItem) :
    sameExceptLetter (setItemLetter g x).comp x.comp :=
  ⟨rfl, rfl, rfl, rfl, rfl, rfl⟩

theorem idxGet_mapIndexLetters (g : IdxItem → Str) (idx : IndexT) (k : Str) :
    idxGet (mapIndexLetters g idx) k = (idxGet idx k).map (setItemLetter g) := by
  induction idx with
  | nil => rfl
  | cons e rest ih =>
      obtain ⟨k', l⟩ := e
      by_cases h : k' = k
      · simp [mapIndexLetters, idxGet, h]
      · simp only [mapIndexLetters, List.map_cons, idxGet, if_neg h]
        simpa [mapIndexLetters] using ih

theorem key4_setItemLetter (g : IdxItem → Str) (x : IdxItem) :
    key4 (setItemLetter g x) = key4 x := rfl

theorem uniqueItemsGo_map (g : IdxItem → Str) (l : List IdxItem) :
    ∀ seen, uniqueItemsGo seen (l.map (setItemLetter g)) =
      (uniqueItemsGo seen l).map (setItemLetter g) := by
  induction l with
  | nil => intro seen; rfl
  | cons x xs ih =>
      intro seen
      simp only [List.map_cons, uniqueItemsGo, key4_setItemLetter]
      by_cases h : key4 x ∈ seen
      · simp [h, ih]
      · simp [h, ih]

theorem unique_items_map (g : IdxItem → Str) (l : List IdxItem) :
    unique_items (l.map (setItemLetter g)) =
      (unique_items l).map (setItemLetter g) :=
  uniqueItemsGo_map g l []

/-- `filter` over a mapped list, with an extensionally pulled-back
predicate. -/
theorem filter_map_pull {α β : Type} (f : α → β) (p : β → Bool) (q : α → Bool)
    (hpq : ∀ x, p (f x) = q x) (l : List α) :
    (l.map f).filter p = (l.filter q).map f := by
  induction l with
  | nil => rfl
  | cons x xs ih =>
      simp only [List.map_cons, List.filter_cons, hpq, ih]
      by_cases hx : q x <;> simp [hx]

/-- `any` over a mapped list, with an extensionally pulled-back predicate. -/
theorem any_map_pull {α β : Type} (f : α → β) (p : β → Bool) (q : α → Bool)
    (hpq : ∀ x, p (f x) = q x) (l : List α) :
    (l.map f).any p = l.any q := by
  induction l with
  | nil => rfl
  | cons x xs ih => simp [hpq, ih]

theorem map_eq_nil_iff' {α β : Type} (f : α → β) (l : List α) :
    l.map f = [] ↔ l = [] := by
  cases l <;> simp

theorem insertLe_map {α β : Type} (f : α → β) (le : β → β → Bool)
    (le' : α → α → Bool) (hle : ∀ x y, le (f x) (f y) = le' x y) (x : α) :
    ∀ l : List α, insertLe le (f x) (l.map f) = (insertLe le' x l).map f := by
  intro l
  induction l with
  | nil => rfl
  | cons y ys ih =>
      simp only [List.map_cons, insertLe, hle]
      by_cases h : le' y x <;> simp [h, ih]

theorem sortLe_map {α β : Type} (f : α → β) (le : β → β → Bool)
    (le' : α → α → Bool) (hle : ∀ x y, le (f x) (f y) = le' x y)
    (l : List α) : sortLe le (l.map f) = (sortLe le' l).map f := by
  induction l with
  | nil => rfl
  | cons x xs ih =>
      simp only [List.map_cons, sortLe, ih, insertLe_map f le le' hle]

theorem sortByAreaDiff_map (a : Option ℚ) (g : IdxItem → Str)
    (l : List IdxItem) :
    sortByAreaDiff a (l.map (setItemLetter g)) =
      (sortByAreaDiff a l).map (setItemLetter g) :=
  sortLe_map _ _ _ (fun _ _ => rfl) l

theorem isPartMismatch_congr {cc cc' : AddressComponents}
    (h : sameExceptLetter cc cc') (g : IdxItem → Str) (x : IdxItem) :
    isPartMismatch cc (setItemLetter g x) = isPartMismatch cc' x := by
  unfold isPartMismatch
  rw [part_relation_congr .corp h (setItemLetter_comp_rel g x),
    part_relation_congr .str h (setItemLetter_comp_rel g x)]

theorem candidatePull_letter (g : IdxItem → Str) {cc cc' : AddressComponents}
    (h : sameExceptLetter cc cc') (idx : IndexT) :
    candidatePull cc (mapIndexLetters g idx) =
      (candidatePull cc' idx).map (setItemLetter g) := by
  unfold candidatePull
  rw [h.1, h.2.1, idxGet_mapIndexLetters, idxGet_mapIndexLetters]
  have huq : ∀ A B : List IdxItem,
      unique_items (A.map (setItemLetter g) ++ B.map (setItemLetter g)) =
        (unique_items (A ++ B)).map (setItemLetter g) := by
    intro A B
    rw [← List.map_append]
    exact unique_items_map g (A ++ B)
  split_ifs
  · exact huq _ _
  · simpa using huq (idxGet idx cc'.street_key) []
  · simpa using huq [] (idxGet idx cc'.street_key_bag)
  · simpa using huq [] []

theorem overlapCandidates_letter (g : IdxItem → Str)
    {cc cc' : AddressComponents} (h : sameExceptLetter cc cc') (idx : IndexT) :
    overlapCandidates cc (mapIndexLetters g idx) =
      (overlapCandidates cc' idx).map (setItemLetter g) := by
  unfold overlapCandidates
  rw [candidatePull_letter g h idx,
    filter_map_pull (setItemLetter g) (fun c => houses_overlap cc c.comp)
      (fun c => houses_overlap cc' c.comp)
      (fun x => houses_overlap_congr h (setItemLetter_comp_rel g x))]

/-- The decision chain returns the same verdict string on a candidate list
whose house letters were arbitrarily rewritten, for any query components
that differ only in `house_letter`. -/
theorem compare_tail_letter_result {cc cc' : AddressComponents}
    (h : sameExceptLetter cc cc') (area price : Option ℚ) (deal : Str)
    (g : IdxItem → Str) (C : List IdxItem) :
    (compare_tail cc area price deal (C.map (setItemLetter g))).result =
      (compare_tail cc' area price deal C).result := by
  simp only [compare_tail]
  by_cases hC : C = []
  · subst hC
    simp
  · rw [if_neg (by simpa [map_eq_nil_iff'] using hC), if_neg hC]
    rw [filter_map_pull (setItemLetter g)
        (fun c => !isPartMismatch cc c) (fun c => !isPartMismatch cc' c)
        (fun x => congrArg (fun b => !b) (isPartMismatch_congr h g x)) C,
      filter_map_pull (setItemLetter g)
        (fun c => isPartMismatch cc c) (fun c => isPartMismatch cc' c)
        (fun x => isPartMismatch_congr h g x) C]
    rw [sortByAreaDiff_map, sortByAreaDiff_map]
    rw [filter_map_pull (setItemLetter g)
        (fun c => area_diff area c ≤ AREA_TOL)
        (fun c => area_diff area c ≤ AREA_TOL) (fun x => rfl)]
    rw [any_map_pull (setItemLetter g)
        (fun x => x.deal_type = chars "sale")
        (fun x => x.deal_type = chars "sale") (fun x => rfl),
      any_map_pull (setItemLetter g)
        (fun x => x.deal_type = chars "rent")
        (fun x => x.deal_type = chars "rent") (fun x => rfl)]
    simp only [ne_eq, map_eq_nil_iff']
    split_ifs <;> rw [mkVerdict_result, mkVerdict_result]

/-- C9: the extracted `house_letter` never influences matching.
`houses_overlap` and `part_relation` are unchanged by any change of the house
letters on either side, and `compare_one` returns the same verdict when the
query's parsed components differ only in `house_letter` and the catalog
items' parsed house letters are rewritten arbitrarily — so `18а` and `18б`
on the same street are treated as the same house. -/
theorem house_letter_invariance :
    (∀ a a' b b' : AddressComponents, sameExceptLetter a a' →
      sameExceptLetter b b' → houses_overlap a b = houses_overlap a' b') ∧
    (∀ a a' b b' : AddressComponents, ∀ f : PartField, sameExceptLetter a a' →
      sameExceptLetter b b' → part_relation a b f = part_relation a' b' f) ∧
    (∀ (r r' : CompRow) (idx : IndexT) (g : IdxItem → Str)
        (cc cc' : AddressComponents),
      r.area_m2 = r'.area_m2 → r.price_rub = r'.price_rub →
      r.deal_type = r'.deal_type →
      extract_components r.address = some cc →
      extract_components r'.address = some cc' →
      sameExceptLetter cc cc' →
      (compare_one r (mapIndexLetters g idx)).result =
        (compare_one r' idx).result) := by
  refine ⟨fun a a' b b' ha hb => houses_overlap_congr ha hb,
    fun a a' b b' f ha hb => part_relation_congr f ha hb, ?_⟩
  intro r r' idx g cc cc' harea hprice hdeal hex hex' h
  have hdn : dealNorm r = dealNorm r' := by
    unfold dealNorm
    rw [hdeal]
  simp only [compare_one, hex, hex']
  by_cases hk : cc'.street_key = [] ∧ cc'.street_key_bag = []
  · rw [if_pos (by rw [h.1, h.2.1]; exact hk), if_pos hk]
  · rw [if_neg (by rw [h.1, h.2.1]; exact hk), if_neg hk]
    unfold compare_core
    rw [overlapCandidates_letter g h idx, harea, hprice, hdn]
    exact compare_tail_letter_result h r'.area_m2 r'.price_rub (dealNorm r') g
      (overlapCandidates cc' idx)

/-- Competitor rows for the C9 witness: `18а` vs `18б` on the same street. -/
def rowA : CompRow :=
  { address := some (chars "тестовая ул, 18а"), area_m2 := some 100,
    price_rub := some 500000, deal_type := some (chars "sale") }

def rowB : CompRow :=
  { address := some (chars "тестовая ул, 18б"), area_m2 := some 100,
    price_rub := some 500000, deal_type := some (chars "sale") }

def compA : AddressComponents := (extract_components rowA.address).getD emptyComp

def compB : AddressComponents := (extract_components rowB.address).getD emptyComp

def item18v : MyItem :=
  { deal_type := chars "sale", status := chars "На сайте",
    address := chars "тестовая ул, 18в", area_m2 := some 100,
    price_rub := some 400000, crm_url := chars "u18" }

def idx18 : IndexT := build_my_index [item18v]

/-- Witness for C9: the two queries differing only in house letter, matched
against the index whose item letter is rewritten to `г`, give one verdict. -/
theorem house_letter_invariance_witness :
    (compare_one rowA (mapIndexLetters (fun _ => chars "г") idx18)).result =
      (compare_one rowB idx18).result :=
  house_letter_invariance.2.2 rowA rowB idx18 (fun _ => chars "г") compA compB
    rfl rfl rfl (by decide) (by decide) (by decide)

/-! ## C1: street+house+area matched candidates and the `Совпало` verdict -/

/-- An indexed item's stored components are the extraction of its address. -/
def itemWF (x : IdxItem) : Prop :=
  extract_components (some x.address) = some x.comp

/-- Every item stored anywhere in the index satisfies `itemWF`. -/
def idxWF (idx : IndexT) : Prop := ∀ e ∈ idx, ∀ x ∈ e.2, itemWF x

/-- Every key of the index is a nonempty string. -/
def idxKeys (idx : IndexT) : Prop := ∀ e ∈ idx, e.1 ≠ []

theorem idxWF_nil : idxWF [] := by
  intro e he
  cases he

theorem idxKeys_nil : idxKeys [] := by
  intro e he
  cases he

theorem idxInsert_wf (it : IdxItem) (hit : itemWF it) (k : Str) :
    ∀ idx : IndexT, idxWF idx → idxWF (idxInsert idx k it) := by
  intro idx
  induction idx with
  | nil =>
      intro _ e he x hx
      simp only [idxInsert] at he
      rw [List.mem_singleton.mp he] at hx
      rw [List.mem_singleton.mp hx]
      exact hit
  | cons p rest ih =>
      obtain ⟨k', l⟩ := p
      intro hwf e he x hx
      simp only [idxInsert] at he
      by_cases h : k' = k
      · rw [if_pos h] at he
        rcases List.mem_cons.mp he with rfl | he2
        · rcases List.mem_append.mp hx with hx1 | hx2
          · exact hwf (k', l) (List.mem_cons_self _ _) x hx1
          · rw [List.mem_singleton.mp hx2]
            exact hit
        · exact hwf e (List.mem_cons_of_mem _ he2) x hx
      · rw [if_neg h] at he
        rcases List.mem_cons.mp he with rfl | he2
        · exact hwf (k', l) (List.mem_cons_self _ _) x hx
        · exact ih (fun e' he' => hwf e' (List.mem_cons_of_mem _ he')) e he2 x hx

theorem idxInsert_keys (it : IdxItem) (k : Str) (hk : k ≠ []) :
    ∀ idx : IndexT, idxKeys idx → idxKeys (idxInsert idx k it) := by
  intro idx
  induction idx with
  | nil =>
      intro _ e he
      simp only [idxInsert] at he
      rw [List.mem_singleton.mp he]
      exact hk
  | cons p rest ih =>
      obtain ⟨k', l⟩ := p
      intro hks e he
      simp only [idxInsert] at he
      by_cases h : k' = k
      · rw [if_pos h] at he
        rcases List.mem_cons.mp he with rfl | he2
        · exact hks (k', l) (List.mem_cons_self _ _)
        · exact hks e (List.mem_cons_of_mem _ he2)
      · rw [if_neg h] at he
        rcases List.mem_cons.mp he with rfl | he2
        · exact hks (k', l) (List.mem_cons_self _ _)
        · exact ih (fun e' he' => hks e' (List.mem_cons_of_mem _ he')) e he2

theorem foldl_invariant {α β : Type} (P : β → Prop) (f : β → α → β)
    (hf : ∀ b a, P b → P (f b a)) :
    ∀ (l : List α) (b : β), P b → P (l.foldl f b) := by
  intro l
  induction l with
  | nil => intro b hb; exact hb
  | cons x xs ih =>
      intro b hb
      rw [List.foldl_cons]
      exact ih (f b x) (hf b x hb)

theorem build_my_index_wf (my_items : List MyItem) :
    idxWF (build_my_index my_items) := by
  unfold build_my_index
  refine foldl_invariant idxWF _ ?_ my_items [] idxWF_nil
  intro idx it hwf
  rcases hx : extract_components (some it.address) with _ | comp
  · simpa [hx] using hwf
  · simp only [hx]
    have hit : itemWF (⟨it, comp⟩ : IdxItem) := hx
    show idxWF (if comp.street_key_bag ≠ [] ∧
        comp.street_key_bag ≠ comp.street_key then
      idxInsert (if comp.street_key ≠ [] then
          idxInsert idx comp.street_key ⟨it, comp⟩ else idx)
        comp.street_key_bag ⟨it, comp⟩
      else (if comp.street_key ≠ [] then
        idxInsert idx comp.street_key ⟨it, comp⟩ else idx))
    by_cases hb : comp.street_key_bag ≠ [] ∧
        comp.street_key_bag ≠ comp.street_key
    · rw [if_pos hb]
      by_cases hk : comp.street_key ≠ []
      · rw [if_pos hk]
        exact idxInsert_wf _ hit _ _ (idxInsert_wf _ hit _ _ hwf)
      · rw [if_neg hk]
        exact idxInsert_wf _ hit _ _ hwf
    · rw [if_neg hb]
      by_cases hk : comp.street_key ≠ []
      · rw [if_pos hk]
        exact idxInsert_wf _ hit _ _ hwf
      · rw [if_neg hk]
        exact hwf

theorem build_my_index_keys (my_items : List MyItem) :
    idxKeys (build_my_index my_items) := by
  unfold build_my_index
  refine foldl_invariant idxKeys _ ?_ my_items [] idxKeys_nil
  intro idx it hks
  rcases hx : extract_components (some it.address) with _ | comp
  · simpa [hx] using hks
  · simp only [hx]
    show idxKeys (if comp.street_key_bag ≠ [] ∧
        comp.street_key_bag ≠ comp.street_key then
      idxInsert (if comp.street_key ≠ [] then
          idxInsert idx comp.street_key ⟨it, comp⟩ else idx)
        comp.street_key_bag ⟨it, comp⟩
      else (if comp.street_key ≠ [] then
        idxInsert idx comp.street_key ⟨it, comp⟩ else idx))
    by_cases hb : comp.street_key_bag ≠ [] ∧
        comp.street_key_bag ≠ comp.street_key
    · rw [if_pos hb]
      by_cases hk : comp.street_key ≠ []
      · rw [if_pos hk]
        exact idxInsert_keys _ _ hb.1 _ (idxInsert_keys _ _ hk _ hks)
      · rw [if_neg hk]
        exact idxInsert_keys _ _ hb.1 _ hks
    · rw [if_neg hb]
      by_cases hk : comp.street_key ≠ []
      · rw [if_pos hk]
        exact idxInsert_keys _ _ hk _ hks
      · rw [if_neg hk]
        exact hks

theorem idxGet_wf : ∀ idx : IndexT, idxWF idx → ∀ (k : Str) (x : IdxItem),
    x ∈ idxGet idx k → itemWF x := by
  intro idx
  induction idx with
  | nil =>
      intro _ k x hx
      simp [idxGet] at hx
  | cons p rest ih =>
      obtain ⟨k', l⟩ := p
      intro hwf k x hx
      simp only [idxGet] at hx
      by_cases h : k' = k
      · rw [if_pos h] at hx
        exact hwf (k', l) (List.mem_cons_self _ _) x hx
      · rw [if_neg h] at hx
        exact ih (fun e he => hwf e (List.mem_cons_of_mem _ he)) k x hx

theorem idxGet_nil_of_keys : ∀ idx : IndexT, idxKeys idx →
    idxGet idx [] = [] := by
  intro idx
  induction idx with
  | nil => intro _; rfl
  | cons p rest ih =>
      obtain ⟨k', l⟩ := p
      intro hks
      simp only [idxGet]
      rw [if_neg (hks (k', l) (List.mem_cons_self _ _))]
      exact ih (fun e he => hks e (List.mem_cons_of_mem _ he))

/-- The dedup pass keeps, for each input member, some member with the same
`(crm_url, address, area, price)` key. -/
theorem uniqueItemsGo_twin (c : IdxItem) : ∀ (l : List IdxItem) (seen),
    c ∈ l → key4 c ∉ seen →
    ∃ t ∈ uniqueItemsGo seen l, key4 t = key4 c := by
  intro l
  induction l with
  | nil =>
      intro seen hc _
      cases hc
  | cons x xs ih =>
      intro seen hc hns
      simp only [uniqueItemsGo]
      by_cases hx : key4 x ∈ seen
      · rw [if_pos hx]
        rcases List.mem_cons.mp hc with rfl | hc2
        · exact absurd hx hns
        · exact ih seen hc2 hns
      · rw [if_neg hx]
        rcases List.mem_cons.mp hc with rfl | hc2
        · exact ⟨c, List.mem_cons_self _ _, rfl⟩
        · by_cases hk : key4 c = key4 x
          · exact ⟨x, List.mem_cons_self _ _, hk.symm⟩
          · obtain ⟨t, ht, hkt⟩ := ih (key4 x :: seen) hc2 (by
              intro hmem
              rcases List.mem_cons.mp hmem with h | h
              · exact hk h
              · exact hns h)
            exact ⟨t, List.mem_cons_of_mem _ ht, hkt⟩

theorem unique_items_twin (c : IdxItem) (l : List IdxItem) (hc : c ∈ l) :
    ∃ t ∈ unique_items l, key4 t = key4 c :=
  uniqueItemsGo_twin c l [] hc (by simp)

theorem uniqueItemsGo_subset : ∀ (l : List IdxItem) seen (t : IdxItem),
    t ∈ uniqueItemsGo seen l → t ∈ l := by
  intro l
  induction l with
  | nil =>
      intro seen t ht
      simp [uniqueItemsGo] at ht
  | cons x xs ih =>
      intro seen t ht
      simp only [uniqueItemsGo] at ht
      by_cases h : key4 x ∈ seen
      · rw [if_pos h] at ht
        exact List.mem_cons_of_mem _ (ih seen t ht)
      · rw [if_neg h] at ht
        rcases List.mem_cons.mp ht with rfl | ht2
        · exact List.mem_cons_self _ _
        · exact List.mem_cons_of_mem _ (ih _ t ht2)

theorem mem_insertLe {α : Type} (le : α → α → Bool) (x y : α) :
    ∀ l : List α, (y ∈ insertLe le x l ↔ y ∈ x :: l) := by
  intro l
  induction l with
  | nil => simp [insertLe]
  | cons z zs ih =>
      by_cases h : le z x <;> simp [insertLe, h, ih, List.mem_cons] <;> tauto

theorem mem_sortLe {α : Type} (le : α → α → Bool) (y : α) :
    ∀ l : List α, (y ∈ sortLe le l ↔ y ∈ l) := by
  intro l
  induction l with
  | nil => simp [sortLe]
  | cons x xs ih =>
      simp only [sortLe]
      rw [mem_insertLe]
      simp [List.mem_cons, ih]

/-- On a candidate list containing a part-compatible candidate within the
area tolerance, the decision chain ends in the `close`-branch verdicts. -/
theorem compare_tail_close_verdict (cc : AddressComponents)
    (area price : Option ℚ) (deal : Str) (cand : List IdxItem) (t : IdxItem)
    (ht : t ∈ cand) (hmm : isPartMismatch cc t = false)
    (hcl : area_diff area t ≤ AREA_TOL) :
    (deal ≠ chars "sale" →
      (compare_tail cc area price deal cand).result = chars "Совпало") ∧
    ((compare_tail cc area price deal cand).result = chars "Совпало" ∨
      ((compare_tail cc area price deal cand).result =
          chars "У нас аренда, у конкурента продажа" ∧
        deal = chars "sale")) := by
  have hcne : cand ≠ [] := List.ne_nil_of_mem ht
  have htsh : t ∈ cand.filter (fun c => !isPartMismatch cc c) :=
    List.mem_filter.mpr ⟨ht, by simp [hmm]⟩
  have hshne : cand.filter (fun c => !isPartMismatch cc c) ≠ [] :=
    List.ne_nil_of_mem htsh
  have htss : t ∈ sortByAreaDiff area
      (cand.filter (fun c => !isPartMismatch cc c)) := by
    unfold sortByAreaDiff
    exact (mem_sortLe _ t _).mpr htsh
  have htcl : t ∈ (sortByAreaDiff area
      (cand.filter (fun c => !isPartMismatch cc c))).filter
        (fun c => area_diff area c ≤ AREA_TOL) :=
    List.mem_filter.mpr ⟨htss, by simp [hcl]⟩
  have hclne : (sortByAreaDiff area
      (cand.filter (fun c => !isPartMismatch cc c))).filter
        (fun c => area_diff area c ≤ AREA_TOL) ≠ [] :=
    List.ne_nil_of_mem htcl
  simp only [compare_tail]
  rw [if_neg hcne, if_neg (fun hcon => hshne hcon.1), if_neg hclne]
  constructor
  · intro hdne
    rw [if_neg (fun hcon => hdne hcon.1), mkVerdict_result]
  · split_ifs with hcond
    · exact Or.inr ⟨mkVerdict_result _ _ _ _ _, hcond.1⟩
    · exact Or.inl (mkVerdict_result _ _ _ _ _)

/-- C1 (amended): if a catalog candidate is indexed under the query's
`street_key` or `street_key_bag`, its house range overlaps the query's, its
corp and building relations are not `mismatch`, and the areas differ by at
most `AREA_TOL = 5`, then `compare_one` answers `Совпало` — unless the query
is a sale and the close pool is rent-only, in which case the verdict is the
deal-type alert `У нас аренда, у конкурента продажа` (an exception the claim
omits). -/
theorem compare_one_street_house_area_match (my_items : List MyItem)
    (row : CompRow) (cc : AddressComponents) (c : IdxItem) (a b : ℚ)
    (hex : extract_components row.address = some cc)
    (hmem : c ∈ idxGet (build_my_index my_items) cc.street_key ∨
      c ∈ idxGet (build_my_index my_items) cc.street_key_bag)
    (hov : houses_overlap cc c.comp = true)
    (hcorp : part_relation cc c.comp PartField.corp ≠ PartRel.mismatch)
    (hbld : part_relation cc c.comp PartField.str ≠ PartRel.mismatch)
    (harea : row.area_m2 = some a) (hcb : c.area_m2 = some b)
    (htol : qabs (a - b) ≤ AREA_TOL) :
    (dealNorm row ≠ chars "sale" →
      (compare_one row (build_my_index my_items)).result = chars "Совпало") ∧
    ((compare_one row (build_my_index my_items)).result = chars "Совпало" ∨
      ((compare_one row (build_my_index my_items)).result =
          chars "У нас аренда, у конкурента продажа" ∧
        dealNorm row = chars "sale")) := by
  have hkey : cc.street_key ≠ [] ∨ cc.street_key_bag ≠ [] := by
    rcases hmem with hm | hm
    · left
      intro h0
      rw [h0, idxGet_nil_of_keys _ (build_my_index_keys my_items)] at hm
      cases hm
    · right
      intro h0
      rw [h0, idxGet_nil_of_keys _ (build_my_index_keys my_items)] at hm
      cases hm
  have hcraw : c ∈ ((if cc.street_key ≠ [] then
      idxGet (build_my_index my_items) cc.street_key else []) ++
    (if cc.street_key_bag ≠ [] then
      idxGet (build_my_index my_items) cc.street_key_bag else [])) := by
    rcases hmem with hm | hm
    · have hk : cc.street_key ≠ [] := by
        intro h0
        rw [h0, idxGet_nil_of_keys _ (build_my_index_keys my_items)] at hm
        cases hm
      rw [if_pos hk]
      exact List.mem_append.mpr (Or.inl hm)
    · have hk : cc.street_key_bag ≠ [] := by
        intro h0
        rw [h0, idxGet_nil_of_keys _ (build_my_index_keys my_items)] at hm
        cases hm
      rw [if_pos hk]
      exact List.mem_append.mpr (Or.inr hm)
  obtain ⟨t, htu, htk⟩ := unique_items_twin c _ hcraw
  have htpull : t ∈ candidatePull cc (build_my_index my_items) := by
    unfold candidatePull
    exact htu
  have htraw := uniqueItemsGo_subset _ [] t htu
  have hwt : itemWF t := by
    rcases List.mem_append.mp htraw with hm | hm
    · by_cases hk : cc.street_key ≠ []
      · rw [if_pos hk] at hm
        exact idxGet_wf _ (build_my_index_wf my_items) _ t hm
      · rw [if_neg hk] at hm
        cases hm
    · by_cases hk : cc.street_key_bag ≠ []
      · rw [if_pos hk] at hm
        exact idxGet_wf _ (build_my_index_wf my_items) _ t hm
      · rw [if_neg hk] at hm
        cases hm
  have hwc : itemWF c := by
    rcases hmem with hm | hm <;>
      exact idxGet_wf _ (build_my_index_wf my_items) _ c hm
  have htaddr : t.address = c.address := congrArg (fun p => p.2.1) htk
  have htarea : t.area_m2 = c.area_m2 := congrArg (fun p => p.2.2.1) htk
  have hcomp : t.comp = c.comp := by
    have h1 : extract_components (some t.address) = some t.comp := hwt
    rw [htaddr, hwc] at h1
    exact (Option.some.inj h1).symm
  have htov : t ∈ overlapCandidates cc (build_my_index my_items) := by
    unfold overlapCandidates
    refine List.mem_filter.mpr ⟨htpull, ?_⟩
    show houses_overlap cc t.comp = true
    rw [hcomp]
    exact hov
  have hmm : isPartMismatch cc t = false := by
    have hc1 : part_relation cc t.comp PartField.corp ≠ PartRel.mismatch := by
      rw [hcomp]
      exact hcorp
    have hc2 : part_relation cc t.comp PartField.str ≠ PartRel.mismatch := by
      rw [hcomp]
      exact hbld
    simp [isPartMismatch, hc1, hc2]
  have hta : t.area_m2 = some b := htarea.trans hcb
  have hclt : area_diff row.area_m2 t ≤ AREA_TOL := by
    have hav : area_diff row.area_m2 t = qabs (a - b) := by
      unfold area_diff
      rw [harea, hta]
    rw [hav]
    exact htol
  have hguard : ¬(cc.street_key = [] ∧ cc.street_key_bag = []) := by
    rcases hkey with hk | hk
    · exact fun hcon => hk hcon.1
    · exact fun hcon => hk hcon.2
  have hred : compare_one row (build_my_index my_items) =
      compare_tail cc row.area_m2 row.price_rub (dealNorm row)
        (overlapCandidates cc (build_my_index my_items)) := by
    simp only [compare_one, hex]
    rw [if_neg hguard]
    rfl
  rw [hred]
  exact compare_tail_close_verdict cc row.area_m2 row.price_rub (dealNorm row)
    _ t htov hmm hclt

/-- A rent catalog item at `тестовая ул, 5`. -/
def cexMyRent : MyItem :=
  { deal_type := chars "rent", status := chars "На сайте",
    address := chars "тестовая ул, 5", area_m2 := some 100,
    price_rub := some 1000000, crm_url := chars "u5" }

/-- A competitor *sale* row at the same address and area. -/
def cexRowSale : CompRow :=
  { address := some (chars "тестовая ул, 5"), area_m2 := some 100,
    price_rub := some 1200000, deal_type := some (chars "sale") }

def cexSaleCC : AddressComponents :=
  (extract_components cexRowSale.address).getD emptyComp

def cexIdxItem : IdxItem :=
  ⟨cexMyRent, (extract_components (some cexMyRent.address)).getD emptyComp⟩

/-- C1 counterexample: every hypothesis of the claim holds — the catalog item
is indexed under the query's street key, houses overlap, corp/building are
not mismatched, areas are equal (difference 0 ≤ 5) — and yet the verdict is
the deal-type alert, not `Совпало`, because the query is a sale and the only
close candidate is a rent. -/
theorem compare_one_deal_exception_cex :
    extract_components cexRowSale.address = some cexSaleCC ∧
    cexIdxItem ∈ idxGet (build_my_index [cexMyRent]) cexSaleCC.street_key ∧
    houses_overlap cexSaleCC cexIdxItem.comp = true ∧
    part_relation cexSaleCC cexIdxItem.comp PartField.corp ≠
      PartRel.mismatch ∧
    part_relation cexSaleCC cexIdxItem.comp PartField.str ≠
      PartRel.mismatch ∧
    cexRowSale.area_m2 = some 100 ∧ cexIdxItem.area_m2 = some 100 ∧
    qabs ((100 : ℚ) - 100) ≤ AREA_TOL ∧
    (compare_one cexRowSale (build_my_index [cexMyRent])).result =
      chars "У нас аренда, у конкурента продажа" ∧
    (compare_one cexRowSale (build_my_index [cexMyRent])).result ≠
      chars "Совпало" := by
  decide

/-- A competitor *rent* row at the same address and area. -/
def wRowRent : CompRow :=
  { address := some (chars "тестовая ул, 5"), area_m2 := some 100,
    price_rub := some 900000, deal_type := some (chars "rent") }

def wRentCC : AddressComponents :=
  (extract_components wRowRent.address).getD emptyComp

/-- Witness for C1 (amended): the same catalog against a rent query — all
hypotheses hold and the verdict is `Совпало`. -/
theorem compare_one_street_house_area_match_witness :
    (compare_one wRowRent (build_my_index [cexMyRent])).result =
      chars "Совпало" :=
  (compare_one_street_house_area_match [cexMyRent] wRowRent wRentCC cexIdxItem
    100 100 (by decide) (Or.inl (by decide)) (by decide) (by decide)
    (by decide) (by decide) (by decide) (by decide)).1 (by decide)

end Parser
